import Mathlib

/-!
Verification of the MoveBinaryData converter
(src/packages/nodes-base/nodes/MoveBinaryData.node.ts).

The node moves data between the structured ("json") side and the binary side
of a record.  The embedding models:

* `JValue` — the JSON-like runtime values (numbers restricted to integers;
  floating point is out of scope).  Per the spec's data model, map keys are
  unique per map.
* lodash `get` / `set` / `unset` over dot-paths, modelled as `lodashGet`,
  `lodashSet`, `lodashUnset` on pre-split segment lists.  Per spec section 6,
  each path segment is a literal map key, so only object navigation is
  modelled (lodash array-index navigation is out of scope).
* `JSON.stringify` / `JSON.parse` — a compact structural-notation printer and
  a fueled recursive-descent reader with a proved round-trip.
* `Buffer` base64 and UTF-8 codecs with proved round-trips.
* `MoveBinaryData.execute` — the per-item loop body as `convertItem` and the
  batch loop as `execute`, returning `Except` because the code can throw.
-/

namespace MoveBinaryData

/-- The double-quote character (kept out of character literals). -/
def dq : Char := Char.ofNat 34

/-- A JSON-like runtime value.  Numbers are modelled as integers (the claims
only exercise integral numbers; float semantics are out of scope).  Object
fields are an ordered association list; JS objects keep insertion order and
have unique keys. -/
inductive JValue where
  | null
  | bool (b : Bool)
  | num (n : Int)
  | str (s : String)
  | arr (elems : List JValue)
  | obj (fields : List (String × JValue))

/-- Property lookup on an object's field list (first occurrence wins, as in a
JS object, whose keys are unique). -/
def lookupField (fs : List (String × JValue)) (k : String) : Option JValue :=
  match fs with
  | [] => none
  | (k1, v) :: rest => if k1 = k then some v else lookupField rest k

/-- JS property assignment on a field list: an existing key keeps its
position, a new key is appended (JS object insertion order). -/
def putField (fs : List (String × JValue)) (k : String) (x : JValue) :
    List (String × JValue) :=
  match fs with
  | [] => [(k, x)]
  | (k1, v) :: rest => if k1 = k then (k, x) :: rest else (k1, v) :: putField rest k x

/-- JS `delete` on a field list: the key is removed (keys are unique in a JS
object; removing every occurrence makes the model total on raw lists). -/
def removeField (fs : List (String × JValue)) (k : String) :
    List (String × JValue) :=
  match fs with
  | [] => []
  | (k1, v) :: rest =>
      if k1 = k then removeField rest k else (k1, v) :: removeField rest k

/-- lodash `baseGet` after the first step: an empty remaining path returns the
current value; a nonempty path steps into object fields only. -/
def getSub (v : JValue) : List String → Option JValue
  | [] => some v
  | k :: ks =>
      match v with
      | .obj fs =>
          match lookupField fs k with
          | some w => getSub w ks
          | none => none
      | _ => none

/-- lodash `get` on a pre-split path: a zero-length path yields `undefined`
(`baseGet` returns `undefined` when the path has no segments). -/
def lodashGet (v : JValue) (p : List String) : Option JValue :=
  match p with
  | [] => none
  | _ :: _ => getSub v p

/-- lodash `set` on a pre-split path: a non-object root is returned unchanged
(the `isObject` guard); walking, a missing or non-object intermediate is
replaced by a fresh empty object; the final key is assigned. -/
def lodashSet (v : JValue) (p : List String) (x : JValue) : JValue :=
  match p, v with
  | [], _ => v
  | [k], .obj fs => .obj (putField fs k x)
  | k :: ks, .obj fs =>
      let child : JValue :=
        match lookupField fs k with
        | some (.obj gs) => .obj gs
        | _ => .obj []
      .obj (putField fs k (lodashSet child ks x))
  | _ :: _, _ => v

/-- lodash `unset` on a pre-split path: looks up the parent of the last
segment and deletes the key from it; a no-op when the path is absent or a
traversed value is not an object. -/
def lodashUnset (v : JValue) (p : List String) : JValue :=
  match p, v with
  | [], _ => v
  | [k], .obj fs => .obj (removeField fs k)
  | k :: ks, .obj fs =>
      match lookupField fs k with
      | some child => .obj (putField fs k (lodashUnset child ks))
      | none => .obj fs
  | _ :: _, _ => v

theorem lookupField_put_self (fs : List (String × JValue)) (k : String) (x : JValue) :
    lookupField (putField fs k x) k = some x := by
  induction fs with
  | nil => simp [putField, lookupField]
  | cons f rest ih =>
      obtain ⟨k1, v⟩ := f
      by_cases h : k1 = k <;> simp [putField, lookupField, h, ih]

theorem lookupField_put_ne (fs : List (String × JValue)) (k k1 : String) (x : JValue)
    (h : k1 ≠ k) : lookupField (putField fs k x) k1 = lookupField fs k1 := by
  induction fs with
  | nil => simp [putField, lookupField, (Ne.symm h : ¬k = k1)]
  | cons f rest ih =>
      obtain ⟨k2, v⟩ := f
      by_cases h2 : k2 = k
      · subst h2
        simp [putField, lookupField, (Ne.symm h : ¬k2 = k1)]
      · simp [putField, lookupField, h2]
        by_cases h3 : k2 = k1 <;> simp [h3, ih]

theorem lookupField_remove_self (fs : List (String × JValue)) (k : String) :
    lookupField (removeField fs k) k = none := by
  induction fs with
  | nil => simp [removeField, lookupField]
  | cons f rest ih =>
      obtain ⟨k1, v⟩ := f
      by_cases h : k1 = k <;> simp [removeField, lookupField, h, ih]

theorem lookupField_remove_ne (fs : List (String × JValue)) (k k1 : String)
    (h : k1 ≠ k) : lookupField (removeField fs k) k1 = lookupField fs k1 := by
  induction fs with
  | nil => simp [removeField, lookupField]
  | cons f rest ih =>
      obtain ⟨k2, v⟩ := f
      by_cases h2 : k2 = k
      · subst h2
        simp [removeField, lookupField, (Ne.symm h : ¬k2 = k1), ih]
      · simp [removeField, lookupField, h2]
        by_cases h3 : k2 = k1 <;> simp [h3, ih]

/-! ### Structured-data serializer, modelled from the spec

Spec section 6: "Structured-data serializer: value <-> text (e.g.
stringify/parse), matching standard structured-data textual notation."  The
code calls the host's `JSON.stringify` and `JSON.parse`, whose source is not
in the repository; they are modelled here as a compact printer (no
whitespace, quote and backslash escaped) and a fueled recursive-descent
reader over the same notation.  Numbers are integral, matching `JValue`. -/

/-- `(Char.ofNat n).toNat = n` for any valid scalar value. -/
theorem charToNat_ofNat (n : Nat) (h : n.isValidChar) : (Char.ofNat n).toNat = n := by
  simp only [Char.ofNat, dif_pos h, Char.ofNatAux, Char.toNat]
  simp [UInt32.toNat]

/-- `Char.ofNat` inverts `Char.toNat`. -/
theorem charOfNat_toNat (c : Char) : Char.ofNat c.toNat = c := by
  have h : c.toNat.isValidChar := c.valid
  apply Char.ext
  simp only [Char.ofNat, dif_pos h, Char.ofNatAux]
  apply UInt32.ext
  simp [UInt32.toNat, Char.toNat]

/-- A character's scalar value is below 0x110000 and is not a surrogate. -/
theorem charValid (c : Char) :
    c.toNat < 55296 ∨ (57343 < c.toNat ∧ c.toNat < 1114112) := c.valid

/-- The decimal digit character for `d` (`d < 10`). -/
def digitChar (d : Nat) : Char := Char.ofNat (48 + d)

/-- Decimal digit test on a character's scalar value. -/
def isDig (c : Char) : Bool := 48 ≤ c.toNat && c.toNat ≤ 57

/-- Decimal printing of a natural number, most significant digit first,
accumulated onto `acc`; structural on a fuel bound so that it reduces
definitionally (`n < 10 ^ fuel` suffices, see `natCharsFuel_append`). -/
def natCharsFuel : Nat → Nat → List Char → List Char
  | 0, _, acc => acc
  | fuel + 1, n, acc =>
    if n < 10 then digitChar (n % 10) :: acc
    else natCharsFuel fuel (n / 10) (digitChar (n % 10) :: acc)

/-- Decimal printing of a natural number. -/
def natChars (n : Nat) : List Char := natCharsFuel (n + 1) n []

/-- Decimal printing of an integer (minus sign, then digits). -/
def intChars (n : Int) : List Char :=
  if n < 0 then '-' :: natChars n.natAbs else natChars n.toNat

/-- String-body escaping: quote and backslash get a backslash prefix. -/
def escChars : List Char → List Char
  | [] => []
  | c :: cs => if c = dq ∨ c = '\\' then '\\' :: c :: escChars cs else c :: escChars cs

mutual

/-- Compact textual rendering of a value (`JSON.stringify`, modelled from the
spec; no whitespace is emitted). -/
def printJ : JValue → List Char
  | .null => ['n', 'u', 'l', 'l']
  | .bool false => ['f', 'a', 'l', 's', 'e']
  | .bool true => ['t', 'r', 'u', 'e']
  | .num n => intChars n
  | .str s => dq :: (escChars s.data ++ [dq])
  | .arr [] => ['[', ']']
  | .arr (e :: es) => '[' :: (printJ e ++ printArrTail es)
  | .obj [] => ['{', '}']
  | .obj (f :: fs) => '{' :: (printFieldJ f ++ printObjTail fs)

/-- Renders `, e2, e3, ...]` after the first array element. -/
def printArrTail : List JValue → List Char
  | [] => [']']
  | e :: es => ',' :: (printJ e ++ printArrTail es)

/-- Renders one `"key":value` object member. -/
def printFieldJ : String × JValue → List Char
  | (k, v) => dq :: (escChars k.data ++ (dq :: ':' :: printJ v))

/-- Renders `, "k":v, ...}` after the first object member. -/
def printObjTail : List (String × JValue) → List Char
  | [] => ['}']
  | f :: fs => ',' :: (printFieldJ f ++ printObjTail fs)

end

/-- Reads a string body up to the closing quote; only the printer's two
escapes are recognized. -/
def parseStr : List Char → Option (List Char × List Char)
  | [] => none
  | c :: cs =>
    if c = dq then some ([], cs)
    else if c = '\\' then
      match cs with
      | [] => none
      | c2 :: cs2 =>
          if c2 = dq ∨ c2 = '\\' then
            match parseStr cs2 with
            | some (s, r) => some (c2 :: s, r)
            | none => none
          else none
    else
      match parseStr cs with
      | some (s, r) => some (c :: s, r)
      | none => none

/-- Decimal value of a digit run (most significant first). -/
def digitsVal (ds : List Char) : Nat :=
  ds.foldl (fun a c => a * 10 + (c.toNat - 48)) 0

/-- Reads a maximal nonempty digit run as a natural number. -/
def parseNat (cs : List Char) : Option (Nat × List Char) :=
  match cs.takeWhile isDig with
  | [] => none
  | ds => some (digitsVal ds, cs.dropWhile isDig)

mutual

/-- Fueled recursive-descent reader for the printed notation
(`JSON.parse`, modelled from the spec). -/
def parseJ : Nat → List Char → Option (JValue × List Char)
  | 0, _ => none
  | _ + 1, [] => none
  | fuel + 1, c :: cs =>
    if c = 'n' then
      match cs with
      | 'u' :: 'l' :: 'l' :: rest => some (.null, rest)
      | _ => none
    else if c = 't' then
      match cs with
      | 'r' :: 'u' :: 'e' :: rest => some (.bool true, rest)
      | _ => none
    else if c = 'f' then
      match cs with
      | 'a' :: 'l' :: 's' :: 'e' :: rest => some (.bool false, rest)
      | _ => none
    else if c = dq then
      match parseStr cs with
      | some (s, rest) => some (.str (String.mk s), rest)
      | none => none
    else if c = '[' then
      match cs with
      | [] => none
      | c2 :: cs2 =>
        if c2 = ']' then some (.arr [], cs2)
        else
          match parseArrItems fuel (c2 :: cs2) with
          | some (es, rest) => some (.arr es, rest)
          | none => none
    else if c = '{' then
      match cs with
      | [] => none
      | c2 :: cs2 =>
        if c2 = '}' then some (.obj [], cs2)
        else
          match parseObjItems fuel (c2 :: cs2) with
          | some (fs, rest) => some (.obj fs, rest)
          | none => none
    else if c = '-' then
      match parseNat cs with
      | some (n, rest) => some (.num (-(n : Int)), rest)
      | none => none
    else if isDig c then
      match parseNat (c :: cs) with
      | some (n, rest) => some (.num ((n : Int)), rest)
      | none => none
    else none

/-- Reads `e1, e2, ...]` — one or more comma-separated elements and the
closing bracket. -/
def parseArrItems : Nat → List Char → Option (List JValue × List Char)
  | 0, _ => none
  | fuel + 1, cs =>
    match parseJ fuel cs with
    | some (v, rest) =>
      match rest with
      | ']' :: r1 => some ([v], r1)
      | ',' :: r1 =>
        match parseArrItems fuel r1 with
        | some (vs, r2) => some (v :: vs, r2)
        | none => none
      | _ => none
    | none => none

/-- Reads `"k":v, ...}` — one or more members and the closing brace. -/
def parseObjItems : Nat → List Char → Option (List (String × JValue) × List Char)
  | 0, _ => none
  | fuel + 1, cs =>
    match cs with
    | c :: cs1 =>
      if c = dq then
        match parseStr cs1 with
        | some (kcs, r1) =>
          match r1 with
          | ':' :: r2 =>
            match parseJ fuel r2 with
            | some (v, r3) =>
              match r3 with
              | '}' :: r4 => some ([(String.mk kcs, v)], r4)
              | ',' :: r4 =>
                match parseObjItems fuel r4 with
                | some (fs, r5) => some ((String.mk kcs, v) :: fs, r5)
                | none => none
              | _ => none
            | none => none
          | _ => none
        | none => none
      else none
    | [] => none

end

/-- `JSON.stringify`, modelled from the spec (section 6 serializer). -/
def JSONstringify (v : JValue) : String := String.mk (printJ v)

/-- `JSON.parse`, modelled from the spec (section 6 serializer): the reader
must consume the whole input; anything else raises a parse error.  The fuel
bound suffices for every printed value (see `JSONparse_stringify`). -/
def JSONparse (s : String) : Except String JValue :=
  match parseJ (s.data.length + 1) s.data with
  | some (v, []) => .ok v
  | _ => .error "Unexpected token in JSON"

/-! ### Round-trip of the serializer -/

theorem digitChar_toNat (d : Nat) (h : d < 10) : (digitChar d).toNat = 48 + d := by
  have : (48 + d).isValidChar := Or.inl (by omega)
  simpa [digitChar] using charToNat_ofNat (48 + d) this

theorem isDig_digitChar (d : Nat) (h : d < 10) : isDig (digitChar d) = true := by
  simp [isDig, digitChar_toNat d h]
  omega

theorem natCharsFuel_append (n : Nat) : ∀ fuel acc, n < 10 ^ fuel → 1 ≤ fuel →
    natCharsFuel fuel n acc = natChars n ++ acc := by
  induction n using Nat.strong_induction_on with
  | _ n ih =>
    intro fuel acc hf h1
    obtain ⟨f2, rfl⟩ : ∃ f2, fuel = f2 + 1 := ⟨fuel - 1, by omega⟩
    have hself : n < 10 ^ n := by
      calc n < 2 ^ n := Nat.lt_two_pow n
        _ ≤ 10 ^ n := Nat.pow_le_pow_left (by omega) n
    by_cases h : n < 10
    · rw [natCharsFuel, if_pos h, natChars, natCharsFuel, if_pos h]
      simp
    · have hlt : n / 10 < n := Nat.div_lt_self (by omega) (by omega)
      have hdiv2 : n / 10 < 10 ^ f2 := by
        rw [Nat.div_lt_iff_lt_mul (by omega)]
        calc n < 10 ^ (f2 + 1) := hf
          _ = 10 ^ f2 * 10 := by rw [Nat.pow_succ]
      have hdivn : n / 10 < 10 ^ n := lt_of_lt_of_le (Nat.lt_of_lt_of_le hlt (le_of_lt hself)) le_rfl
      have hf2pos : 1 ≤ f2 := by
        by_contra hc
        have : f2 = 0 := by omega
        subst this
        simp at hf
        omega
      rw [natCharsFuel, if_neg h, ih (n / 10) hlt f2 _ hdiv2 hf2pos]
      conv_rhs =>
        rw [natChars, natCharsFuel, if_neg h,
          ih (n / 10) hlt n _ hdivn (by omega)]
      simp

theorem natChars_split (n : Nat) (h : ¬n < 10) :
    natChars n = natChars (n / 10) ++ [digitChar (n % 10)] := by
  have hlt : n / 10 < n := Nat.div_lt_self (by omega) (by omega)
  have hself : n < 10 ^ n := by
    calc n < 2 ^ n := Nat.lt_two_pow n
      _ ≤ 10 ^ n := Nat.pow_le_pow_left (by omega) n
  rw [natChars, natCharsFuel, if_neg h,
    natCharsFuel_append (n / 10) n _ (lt_trans hlt hself) (by omega)]

theorem natChars_lt10 (n : Nat) (h : n < 10) : natChars n = [digitChar n] := by
  rw [natChars, natCharsFuel, if_pos h, Nat.mod_eq_of_lt h]

theorem natChars_ne_nil (n : Nat) : natChars n ≠ [] := by
  by_cases h : n < 10
  · rw [natChars_lt10 n h]
    simp
  · rw [natChars_split n h]
    simp

theorem natChars_all_dig (n : Nat) : ∀ c ∈ natChars n, isDig c = true := by
  induction n using Nat.strong_induction_on with
  | _ n ih =>
    intro c hc
    by_cases h : n < 10
    · rw [natChars_lt10 n h] at hc
      simp at hc
      subst hc
      exact isDig_digitChar _ h
    · rw [natChars_split n h] at hc
      simp at hc
      rcases hc with hc | hc
      · exact ih (n / 10) (Nat.div_lt_self (by omega) (by omega)) c hc
      · subst hc
        exact isDig_digitChar _ (Nat.mod_lt _ (by omega))

theorem digitsVal_natChars (n : Nat) :
    ∀ a, List.foldl (fun a c => a * 10 + (c.toNat - 48)) a (natChars n) =
      a * 10 ^ (natChars n).length + n := by
  induction n using Nat.strong_induction_on with
  | _ n ih =>
    intro a
    by_cases h : n < 10
    · rw [natChars_lt10 n h]
      simp [digitChar_toNat n h]
    · have hlt : n / 10 < n := Nat.div_lt_self (by omega) (by omega)
      have hmod : n / 10 * 10 + n % 10 = n := by omega
      rw [natChars_split n h, List.foldl_append, ih (n / 10) hlt a]
      simp [digitChar_toNat (n % 10) (Nat.mod_lt _ (by omega))]
      calc (a * 10 ^ (natChars (n / 10)).length + n / 10) * 10 + n % 10
          = a * (10 ^ (natChars (n / 10)).length * 10) + (n / 10 * 10 + n % 10) := by
            ring
        _ = a * 10 ^ ((natChars (n / 10)).length + 1) + n := by
            rw [hmod, Nat.pow_succ]

/-- The remaining input may not begin with a digit (so that a printed number
is read back whole). -/
def goodTail : List Char → Prop
  | [] => True
  | c :: _ => isDig c = false

theorem takeWhile_append_all (p : Char → Bool) :
    ∀ ds rest, (∀ c ∈ ds, p c = true) → (match rest with
      | [] => True
      | c :: _ => p c = false) →
    (ds ++ rest).takeWhile p = ds ∧ (ds ++ rest).dropWhile p = rest := by
  intro ds rest hds hrest
  induction ds with
  | nil =>
    cases rest with
    | nil => simp
    | cons c r => simp_all [List.takeWhile, List.dropWhile]
  | cons d ds ih =>
    have hd : p d = true := hds d (by simp)
    have := ih (fun c hc => hds c (by simp [hc]))
    simp_all [List.takeWhile, List.dropWhile]

theorem parseNat_natChars (n : Nat) (rest : List Char) (h : goodTail rest) :
    parseNat (natChars n ++ rest) = some (n, rest) := by
  have hall := natChars_all_dig n
  have htw := takeWhile_append_all isDig (natChars n) rest hall
    (by cases rest with
        | nil => trivial
        | cons c r => exact h)
  rw [parseNat, htw.1, htw.2]
  have hne := natChars_ne_nil n
  have hval : digitsVal (natChars n) = n := by
    have := digitsVal_natChars n 0
    simpa [digitsVal] using this
  cases hnc : natChars n with
  | nil => exact absurd hnc hne
  | cons c cs =>
    rw [hnc] at hval
    simp [hval]

theorem parseStr_escChars (cs : List Char) :
    ∀ rest, parseStr (escChars cs ++ (dq :: rest)) = some (cs, rest) := by
  induction cs with
  | nil =>
    intro rest
    rw [escChars, List.nil_append, parseStr.eq_def]
    simp
  | cons c cs ih =>
    intro rest
    by_cases h : c = dq ∨ c = '\\'
    · have hbs : ¬('\\' = dq) := by decide
      rw [escChars, if_pos h, List.cons_append, List.cons_append, parseStr.eq_def]
      simp [hbs, h, ih]
    · push_neg at h
      rw [escChars, if_neg (by simpa using h), List.cons_append, parseStr.eq_def]
      simp [h.1, h.2, ih]

theorem isDig_ne_all (c : Char) (h : isDig c = true) :
    c ≠ 'n' ∧ c ≠ 't' ∧ c ≠ 'f' ∧ c ≠ dq ∧ c ≠ '[' ∧ c ≠ '{' ∧ c ≠ '-' ∧
      c ≠ ']' ∧ c ≠ '}' ∧ c ≠ ',' := by
  refine ⟨?_, ?_, ?_, ?_, ?_, ?_, ?_, ?_, ?_, ?_⟩ <;>
    (rintro rfl; revert h; decide)

/-- Every printed value starts with a character that closes neither an array
nor an object. -/
theorem printJ_head (v : JValue) :
    ∃ c cs, printJ v = c :: cs ∧ c ≠ ']' ∧ c ≠ '}' := by
  cases v with
  | null => exact ⟨'n', ['u', 'l', 'l'], by simp [printJ], by decide, by decide⟩
  | bool b =>
    cases b with
    | true => exact ⟨'t', ['r', 'u', 'e'], by simp [printJ], by decide, by decide⟩
    | false => exact ⟨'f', ['a', 'l', 's', 'e'], by simp [printJ], by decide, by decide⟩
  | num n =>
    by_cases hneg : n < 0
    · exact ⟨'-', natChars n.natAbs, by simp [printJ, intChars, hneg], by decide, by decide⟩
    · cases hnc : natChars n.toNat with
      | nil => exact absurd hnc (natChars_ne_nil _)
      | cons c cs =>
        have hd : isDig c = true := natChars_all_dig _ c (by rw [hnc]; simp)
        have hne := isDig_ne_all c hd
        exact ⟨c, cs, by simp [printJ, intChars, hneg, hnc], hne.2.2.2.2.2.2.2.1,
          hne.2.2.2.2.2.2.2.2.1⟩
  | str s => exact ⟨dq, escChars s.data ++ [dq], by simp [printJ], by decide, by decide⟩
  | arr es =>
    cases es with
    | nil => exact ⟨'[', [']'], by simp [printJ], by decide, by decide⟩
    | cons e es =>
        exact ⟨'[', printJ e ++ printArrTail es, by simp [printJ], by decide, by decide⟩
  | obj fs =>
    cases fs with
    | nil => exact ⟨'{', ['}'], by simp [printJ], by decide, by decide⟩
    | cons f fs =>
        exact ⟨'{', printFieldJ f ++ printObjTail fs, by simp [printJ], by decide, by decide⟩

mutual

/-- Fuel sufficient for `parseJ` to read back a printed value. -/
def needJ : JValue → Nat
  | .null => 1
  | .bool _ => 1
  | .num _ => 1
  | .str _ => 1
  | .arr es => 1 + needArr es
  | .obj fs => 1 + needObj fs

/-- Fuel sufficient for `parseArrItems` on a printed element list. -/
def needArr : List JValue → Nat
  | [] => 0
  | e :: es => 1 + needJ e + needArr es

/-- Fuel sufficient for `parseObjItems` on a printed member list. -/
def needObj : List (String × JValue) → Nat
  | [] => 0
  | (_, v) :: fs => 1 + needJ v + needObj fs

end

theorem needJ_pos (v : JValue) : 1 ≤ needJ v := by
  cases v <;> simp [needJ] <;> omega

theorem goodTail_arrTail (es : List JValue) (rest : List Char) (h : goodTail rest) :
    goodTail (printArrTail es ++ rest) := by
  cases es <;> simp [printArrTail, goodTail] <;> decide

theorem goodTail_objTail (fs : List (String × JValue)) (rest : List Char)
    (h : goodTail rest) : goodTail (printObjTail fs ++ rest) := by
  cases fs <;> simp [printObjTail, goodTail] <;> decide

/-- The fueled reader inverts the printer: with enough fuel, a printed value
followed by any non-digit-headed tail is read back exactly. -/
theorem parse_print_all : ∀ fuel : Nat,
    (∀ v rest, needJ v ≤ fuel → goodTail rest →
        parseJ fuel (printJ v ++ rest) = some (v, rest)) ∧
    (∀ e es rest, needArr (e :: es) ≤ fuel → goodTail rest →
        parseArrItems fuel (printJ e ++ (printArrTail es ++ rest)) = some (e :: es, rest)) ∧
    (∀ k v fs rest, needObj ((k, v) :: fs) ≤ fuel → goodTail rest →
        parseObjItems fuel (printFieldJ (k, v) ++ (printObjTail fs ++ rest)) =
          some ((k, v) :: fs, rest)) := by
  intro fuel
  induction fuel with
  | zero =>
    refine ⟨?_, ?_, ?_⟩
    · intro v rest h1 _
      have := needJ_pos v
      omega
    · intro e es rest h1 _
      simp [needArr] at h1
    · intro k v fs rest h1 _
      simp [needObj] at h1
  | succ fuel ih =>
    obtain ⟨ih1, ih2, ih3⟩ := ih
    refine ⟨?_, ?_, ?_⟩
    · intro v rest hneed hgt
      have hbrk : ¬('[' = dq) := by decide
      have hbrc : ¬('{' = dq) := by decide
      have hmin : ¬('-' = dq) := by decide
      cases v with
      | null => simp [printJ, parseJ]
      | bool b => cases b <;> simp [printJ, parseJ]
      | num n =>
        by_cases hneg : n < 0
        · have h1 : printJ (.num n) = '-' :: natChars n.natAbs := by
            simp [printJ, intChars, hneg]
          rw [h1, List.cons_append]
          simp [parseJ, hmin, parseNat_natChars n.natAbs rest hgt]
          rw [abs_of_neg hneg]
          simp
        · cases hnc : natChars n.toNat with
          | nil => exact absurd hnc (natChars_ne_nil _)
          | cons c cs =>
            have hd : isDig c = true := natChars_all_dig _ c (by rw [hnc]; simp)
            have hne := isDig_ne_all c hd
            have h1 : printJ (.num n) = c :: cs := by
              simp [printJ, intChars, hneg, hnc]
            rw [h1, List.cons_append]
            have harg : c :: (cs ++ rest) = natChars n.toNat ++ rest := by
              rw [hnc]; simp
            simp [parseJ, hne.1, hne.2.1, hne.2.2.1, hne.2.2.2.1, hne.2.2.2.2.1,
              hne.2.2.2.2.2.1, hne.2.2.2.2.2.2.1, hd, harg,
              parseNat_natChars n.toNat rest hgt]
            omega
      | str s =>
        have h1 : printJ (.str s) = dq :: (escChars s.data ++ [dq]) := by simp [printJ]
        rw [h1, List.cons_append, List.append_assoc]
        have h2 : [dq] ++ rest = dq :: rest := by simp
        rw [h2]
        have d1 : ¬(dq = 'n') := by decide
        have d2 : ¬(dq = 't') := by decide
        have d3 : ¬(dq = 'f') := by decide
        simp [parseJ, d1, d2, d3, parseStr_escChars]
      | arr es =>
        cases es with
        | nil => simp [printJ, parseJ, hbrk]
        | cons e es2 =>
          obtain ⟨c2, cs2, hpe, hne1, hne2⟩ := printJ_head e
          have h1 : printJ (.arr (e :: es2)) = '[' :: (printJ e ++ printArrTail es2) := by
            simp [printJ]
          rw [h1, List.cons_append, List.append_assoc, hpe, List.cons_append]
          have harr := ih2 e es2 rest (by simp [needJ, needArr] at hneed ⊢; omega) hgt
          rw [hpe, List.cons_append] at harr
          simp [parseJ, hbrk, hne1, harr]
      | obj fs =>
        cases fs with
        | nil => simp [printJ, parseJ, hbrc]
        | cons f fs2 =>
          obtain ⟨k, v⟩ := f
          have h1 : printJ (.obj ((k, v) :: fs2)) =
              '{' :: (printFieldJ (k, v) ++ printObjTail fs2) := by
            simp [printJ]
          have hpf : printFieldJ (k, v) = dq :: (escChars k.data ++ (dq :: ':' :: printJ v)) := by
            simp [printFieldJ]
          rw [h1, List.cons_append, List.append_assoc, hpf, List.cons_append]
          have hobj := ih3 k v fs2 rest (by simp [needJ, needObj] at hneed ⊢; omega) hgt
          rw [hpf, List.cons_append] at hobj
          simp only [List.append_assoc, List.cons_append] at hobj
          have hdq2 : ¬(dq = '}') := by decide
          simp [parseJ, hbrc, hdq2]
          rw [hobj]
    · intro e es rest hneed hgt
      have hJ := ih1 e (printArrTail es ++ rest)
        (by simp [needArr] at hneed; omega) (goodTail_arrTail es rest hgt)
      cases es with
      | nil =>
        simp [printArrTail] at hJ ⊢
        simp [parseArrItems, hJ]
      | cons e2 es2 =>
        have hA := ih2 e2 es2 rest (by simp [needArr] at hneed ⊢; omega) hgt
        simp [printArrTail] at hJ ⊢
        simp [parseArrItems, hJ, hA]
    · intro k v fs rest hneed hgt
      have hpf : printFieldJ (k, v) = dq :: (escChars k.data ++ (dq :: ':' :: printJ v)) := by
        simp [printFieldJ]
      have hJ := ih1 v (printObjTail fs ++ rest)
        (by simp [needObj] at hneed; omega) (goodTail_objTail fs rest hgt)
      rw [hpf, List.cons_append]
      cases fs with
      | nil =>
        simp [printObjTail] at hJ ⊢
        simp [parseObjItems, List.append_assoc, parseStr_escChars, hJ]
      | cons f2 fs2 =>
        obtain ⟨k2, v2⟩ := f2
        have hO := ih3 k2 v2 fs2 rest (by simp [needObj] at hneed ⊢; omega) hgt
        simp [printObjTail] at hJ ⊢
        simp [parseObjItems, List.append_assoc, parseStr_escChars, hJ, hO]

/-- The fuel measure is bounded by the printed length (so `JSONparse`'s
input-length fuel always suffices). -/
theorem need_le_len_bound : ∀ b : Nat,
    (∀ v, needJ v ≤ b → needJ v ≤ (printJ v).length) ∧
    (∀ e es, needArr (e :: es) ≤ b →
      needArr (e :: es) ≤ (printJ e).length + (printArrTail es).length) ∧
    (∀ k v fs, needObj ((k, v) :: fs) ≤ b →
      needObj ((k, v) :: fs) ≤ (printFieldJ (k, v)).length + (printObjTail fs).length) := by
  intro b
  induction b with
  | zero =>
    refine ⟨?_, ?_, ?_⟩
    · intro v h
      have := needJ_pos v
      omega
    · intro e es h
      simp [needArr] at h
    · intro k v fs h
      simp [needObj] at h
  | succ b ih =>
    obtain ⟨ih1, ih2, ih3⟩ := ih
    refine ⟨?_, ?_, ?_⟩
    · intro v hb
      cases v with
      | null => simp [needJ, printJ]
      | bool bb => cases bb <;> simp [needJ, printJ]
      | num n =>
        by_cases hneg : n < 0
        · simp [needJ, printJ, intChars, hneg]
        · cases hnc : natChars n.toNat with
          | nil => exact absurd hnc (natChars_ne_nil _)
          | cons c cs => simp [needJ, printJ, intChars, hneg, hnc]
      | str s => simp [needJ, printJ]
      | arr es =>
        cases es with
        | nil => simp [needJ, needArr, printJ]
        | cons e es2 =>
          have h2 := ih2 e es2 (by simp [needJ] at hb; omega)
          simp [needJ, printJ] at h2 ⊢
          omega
      | obj fs =>
        cases fs with
        | nil => simp [needJ, needObj, printJ]
        | cons f fs2 =>
          obtain ⟨k, v⟩ := f
          have h3 := ih3 k v fs2 (by simp [needJ] at hb; omega)
          simp [needJ, printJ] at h3 ⊢
          omega
    · intro e es hb
      have h1 := ih1 e (by simp [needArr] at hb; omega)
      cases es with
      | nil =>
        simp [needArr, printArrTail] at h1 ⊢
        omega
      | cons e2 es2 =>
        have h2 := ih2 e2 es2 (by simp [needArr] at hb ⊢; omega)
        simp [needArr, printArrTail] at h1 h2 ⊢
        omega
    · intro k v fs hb
      have h1 := ih1 v (by simp [needObj] at hb; omega)
      cases fs with
      | nil =>
        simp [needObj, printFieldJ, printObjTail] at h1 ⊢
        omega
      | cons f2 fs2 =>
        obtain ⟨k2, v2⟩ := f2
        have h3 := ih3 k2 v2 fs2 (by simp [needObj] at hb ⊢; omega)
        simp [needObj, printFieldJ, printObjTail] at h1 h3 ⊢
        omega

theorem need_le_len (v : JValue) : needJ v ≤ (printJ v).length :=
  (need_le_len_bound (needJ v)).1 v le_rfl

/-- The modelled serializer round-trips: parsing a printed value yields the
value back. -/
theorem JSONparse_stringify (v : JValue) : JSONparse (JSONstringify v) = .ok v := by
  have hlen : needJ v ≤ (printJ v).length + 1 := Nat.le_succ_of_le (need_le_len v)
  have h := (parse_print_all ((printJ v).length + 1)).1 v [] hlen trivial
  rw [List.append_nil] at h
  show (match parseJ ((printJ v).length + 1) (printJ v) with
    | some (v, []) => Except.ok v
    | _ => Except.error "Unexpected token in JSON") = Except.ok v
  rw [h]

/-- The deep-copy idiom `JSON.parse(JSON.stringify(x))` (lines 277, 292, 313
and 341 of the node). -/
def deepCopy (v : JValue) : JValue :=
  match JSONparse (JSONstringify v) with
  | .ok w => w
  | .error _ => v

/-- Deep copying is the identity on the modelled values (clone semantics). -/
theorem deepCopy_eq (v : JValue) : deepCopy v = v := by
  rw [deepCopy, JSONparse_stringify]

/-! ### Byte-level codecs, modelled from the spec

Spec section 6: "Encoding/decoding utility: byte-string <-> base64 text;
byte-string <-> text using a named character encoding."  The code uses the
host's `Buffer`; bytes are modelled as naturals below 256.  UTF-8 is the
standard 1-4 byte scheme; invalid sequences decode to U+FFFD (lenient, as
`Buffer.toString` never throws on malformed input).  Base64 decoding skips
non-alphabet characters (including padding), as the host decoder does. -/

/-- Encodes one scalar value as 1-4 UTF-8 bytes. -/
def utf8EncodeChar (n : Nat) : List Nat :=
  if n < 128 then [n]
  else if n < 2048 then [192 + n / 64, 128 + n % 64]
  else if n < 65536 then [224 + n / 4096, 128 + (n / 64) % 64, 128 + n % 64]
  else [240 + n / 262144, 128 + (n / 4096) % 64, 128 + (n / 64) % 64, 128 + n % 64]

/-- `Buffer.from(string)` — UTF-8 bytes of a text value. -/
def utf8Encode (s : String) : List Nat :=
  (s.data.map (fun c => utf8EncodeChar c.toNat)).join

/-- The U+FFFD replacement scalar used for malformed input. -/
def repl : Nat := 65533

/-- Continuation-byte test (10xxxxxx). -/
def cont (b : Nat) : Bool := 128 ≤ b && b < 192

/-- Scalar of a well-formed 2-byte sequence (the 0xC2 lead-byte floor already
rules out overlong forms). -/
def val2 (b0 b1 : Nat) : Nat := (b0 - 192) * 64 + (b1 - 128)

/-- Scalar of a 3-byte sequence; overlong and surrogate encodings are
replaced. -/
def val3 (b0 b1 b2 : Nat) : Nat :=
  let n := (b0 - 224) * 4096 + (b1 - 128) * 64 + (b2 - 128)
  if n < 2048 ∨ (55296 ≤ n ∧ n < 57344) then repl else n

/-- Scalar of a 4-byte sequence; overlong and out-of-range encodings are
replaced. -/
def val4 (b0 b1 b2 b3 : Nat) : Nat :=
  let n := (b0 - 240) * 262144 + (b1 - 128) * 4096 + (b2 - 128) * 64 + (b3 - 128)
  if n < 65536 ∨ 1114112 ≤ n then repl else n

/-- Decodes one scalar from a lead byte and the remaining input, returning
the scalar and the input after the consumed sequence; malformed input yields
the replacement scalar. -/
def utf8Step (b0 : Nat) (rest : List Nat) : Nat × List Nat :=
  if b0 < 128 then (b0, rest)
  else if b0 < 194 then (repl, rest)
  else if b0 < 224 then
    match rest with
    | b1 :: r1 => (if cont b1 then val2 b0 b1 else repl, r1)
    | [] => (repl, [])
  else if b0 < 240 then
    match rest with
    | b1 :: b2 :: r2 => (if cont b1 && cont b2 then val3 b0 b1 b2 else repl, r2)
    | _ => (repl, [])
  else if b0 < 245 then
    match rest with
    | b1 :: b2 :: b3 :: r3 =>
        (if cont b1 && cont b2 && cont b3 then val4 b0 b1 b2 b3 else repl, r3)
    | _ => (repl, [])
  else (repl, rest)

theorem utf8Step_snd_le (b0 : Nat) (rest : List Nat) :
    (utf8Step b0 rest).2.length ≤ rest.length := by
  cases rest with
  | nil => rw [utf8Step]; split_ifs <;> simp
  | cons b1 r1 =>
    cases r1 with
    | nil => rw [utf8Step]; split_ifs <;> simp
    | cons b2 r2 =>
      cases r2 with
      | nil => rw [utf8Step]; split_ifs <;> simp <;> omega
      | cons b3 r3 => rw [utf8Step]; split_ifs <;> simp <;> omega

/-- Fueled decoding loop (each step consumes at least the lead byte, so the
input length is enough fuel; structural so that it reduces definitionally). -/
def utf8DecodeFuel : Nat → List Nat → List Nat
  | 0, _ => []
  | _ + 1, [] => []
  | fuel + 1, b0 :: rest => (utf8Step b0 rest).1 :: utf8DecodeFuel fuel (utf8Step b0 rest).2

/-- Decodes UTF-8 bytes to scalar values; malformed sequences yield the
replacement scalar and decoding continues. -/
def utf8DecodeNats (l : List Nat) : List Nat := utf8DecodeFuel l.length l

theorem utf8DecodeFuel_congr : ∀ fuel1 fuel2 l, l.length ≤ fuel1 → l.length ≤ fuel2 →
    utf8DecodeFuel fuel1 l = utf8DecodeFuel fuel2 l := by
  intro fuel1
  induction fuel1 with
  | zero =>
    intro fuel2 l h1 h2
    have : l = [] := by
      cases l with
      | nil => rfl
      | cons b rest => simp at h1
    subst this
    cases fuel2 <;> rfl
  | succ f1 ih =>
    intro fuel2 l h1 h2
    cases l with
    | nil => cases fuel2 <;> rfl
    | cons b0 rest =>
      obtain ⟨f2, rfl⟩ : ∃ f2, fuel2 = f2 + 1 := ⟨fuel2 - 1, by simp at h2; omega⟩
      rw [utf8DecodeFuel, utf8DecodeFuel]
      have hle := utf8Step_snd_le b0 rest
      simp at h1 h2
      rw [ih f2 (utf8Step b0 rest).2 (by omega) (by omega)]

/-- `buffer.toString("utf8")` — text from UTF-8 bytes. -/
def utf8Decode (bs : List Nat) : String :=
  String.mk ((utf8DecodeNats bs).map Char.ofNat)

theorem utf8EncodeChar_lt256 (n : Nat) (h : n < 1114112) :
    ∀ b ∈ utf8EncodeChar n, b < 256 := by
  intro b hb
  rw [utf8EncodeChar] at hb
  split_ifs at hb <;> simp at hb <;> omega

theorem utf8DecodeNats_cons (b0 : Nat) (rest : List Nat) :
    utf8DecodeNats (b0 :: rest) =
      (utf8Step b0 rest).1 :: utf8DecodeNats (utf8Step b0 rest).2 := by
  rw [utf8DecodeNats, utf8DecodeNats, List.length_cons, utf8DecodeFuel]
  have hle := utf8Step_snd_le b0 rest
  rw [utf8DecodeFuel_congr rest.length (utf8Step b0 rest).2.length (utf8Step b0 rest).2
    hle le_rfl]

/-- On the encoding of a valid scalar, the step function consumes exactly the
encoded bytes and returns the scalar. -/
theorem utf8Step_enc (n : Nat) (hv : n.isValidChar) (rest : List Nat) :
    ∃ h t, utf8EncodeChar n = h :: t ∧ utf8Step h (t ++ rest) = (n, rest) := by
  have hv2 : n < 55296 ∨ (57343 < n ∧ n < 1114112) := hv
  by_cases h1 : n < 128
  · refine ⟨n, [], by rw [utf8EncodeChar, if_pos h1], ?_⟩
    rw [utf8Step.eq_def, if_pos h1]
    simp
  · by_cases h2 : n < 2048
    · refine ⟨192 + n / 64, [128 + n % 64],
        by rw [utf8EncodeChar, if_neg h1, if_pos h2], ?_⟩
      have c1 : ¬(192 + n / 64 < 128) := by omega
      have c2 : ¬(192 + n / 64 < 194) := by omega
      have c3 : 192 + n / 64 < 224 := by omega
      have c4 : cont (128 + n % 64) = true := by simp [cont]; omega
      rw [List.cons_append, List.nil_append, utf8Step.eq_def, if_neg c1, if_neg c2, if_pos c3]
      simp [c4, val2]
      omega
    · by_cases h3 : n < 65536
      · refine ⟨224 + n / 4096, [128 + n / 64 % 64, 128 + n % 64],
          by rw [utf8EncodeChar, if_neg h1, if_neg h2, if_pos h3], ?_⟩
        have c1 : ¬(224 + n / 4096 < 128) := by omega
        have c2 : ¬(224 + n / 4096 < 194) := by omega
        have c3 : ¬(224 + n / 4096 < 224) := by omega
        have c4 : 224 + n / 4096 < 240 := by omega
        have c5 : cont (128 + n / 64 % 64) = true := by simp [cont]; omega
        have c6 : cont (128 + n % 64) = true := by simp [cont]; omega
        rw [List.cons_append, List.cons_append, List.nil_append, utf8Step.eq_def,
          if_neg c1, if_neg c2, if_neg c3, if_pos c4]
        simp [c5, c6, val3]
        have hval : n / 4096 * 4096 + n / 64 % 64 * 64 + n % 64 = n := by omega
        rw [hval, if_neg (by omega)]
      · refine ⟨240 + n / 262144, [128 + n / 4096 % 64, 128 + n / 64 % 64, 128 + n % 64],
          by rw [utf8EncodeChar, if_neg h1, if_neg h2, if_neg h3], ?_⟩
        have c1 : ¬(240 + n / 262144 < 128) := by omega
        have c2 : ¬(240 + n / 262144 < 194) := by omega
        have c3 : ¬(240 + n / 262144 < 224) := by omega
        have c4 : ¬(240 + n / 262144 < 240) := by omega
        have c5 : 240 + n / 262144 < 245 := by omega
        have c6 : cont (128 + n / 4096 % 64) = true := by simp [cont]; omega
        have c7 : cont (128 + n / 64 % 64) = true := by simp [cont]; omega
        have c8 : cont (128 + n % 64) = true := by simp [cont]; omega
        rw [List.cons_append, List.cons_append, List.cons_append, List.nil_append,
          utf8Step.eq_def, if_neg c1, if_neg c2, if_neg c3, if_neg c4, if_pos c5]
        simp [c6, c7, c8, val4]
        have hval : n / 262144 * 262144 + n / 4096 % 64 * 4096 + n / 64 % 64 * 64 + n % 64 = n := by
          omega
        rw [hval, if_neg (by omega)]

theorem utf8DecodeNats_encodeChar (n : Nat) (hv : n.isValidChar) (rest : List Nat) :
    utf8DecodeNats (utf8EncodeChar n ++ rest) = n :: utf8DecodeNats rest := by
  obtain ⟨h, t, henc, hstep⟩ := utf8Step_enc n hv rest
  rw [henc, List.cons_append, utf8DecodeNats_cons, hstep]

theorem utf8DecodeNats_encode_list (l : List Char) :
    utf8DecodeNats ((l.map (fun c => utf8EncodeChar c.toNat)).join) = l.map Char.toNat := by
  induction l with
  | nil => simp [utf8DecodeNats, utf8DecodeFuel]
  | cons c cs ih =>
    simp only [List.map_cons, List.join_cons]
    rw [utf8DecodeNats_encodeChar c.toNat c.valid, ih]

/-- Decoding UTF-8-encoded text yields the text back. -/
theorem utf8_roundtrip (s : String) : utf8Decode (utf8Encode s) = s := by
  rw [utf8Decode, utf8Encode, utf8DecodeNats_encode_list, List.map_map]
  have h : ∀ c ∈ s.data, (Char.ofNat ∘ Char.toNat) c = c := fun c _ => charOfNat_toNat c
  rw [List.map_congr_left h]
  simp

/-- UTF-8 bytes are bytes (below 256). -/
theorem utf8Encode_lt256 (s : String) : ∀ b ∈ utf8Encode s, b < 256 := by
  intro b hb
  rw [utf8Encode] at hb
  simp at hb
  obtain ⟨c, _, hc⟩ := hb
  have : c.toNat < 1114112 := by
    rcases charValid c with h | h
    · omega
    · omega
  exact utf8EncodeChar_lt256 c.toNat this b hc

/-- The base64 alphabet character for a sextet. -/
def b64Char (m : Nat) : Char :=
  Char.ofNat (if m < 26 then 65 + m else if m < 52 then 97 + (m - 26)
    else if m < 62 then 48 + (m - 52) else if m = 62 then 43 else 47)

/-- The sextet value of an alphabet character (`none` off the alphabet,
including the padding sign, which the decoder skips). -/
def b64Val (c : Char) : Option Nat :=
  if 65 ≤ c.toNat ∧ c.toNat ≤ 90 then some (c.toNat - 65)
  else if 97 ≤ c.toNat ∧ c.toNat ≤ 122 then some (c.toNat - 97 + 26)
  else if 48 ≤ c.toNat ∧ c.toNat ≤ 57 then some (c.toNat - 48 + 52)
  else if c.toNat = 43 then some 62
  else if c.toNat = 47 then some 63
  else none

/-- `buffer.toString("base64")` — standard padded base64 of a byte list. -/
def base64EncodeChars : List Nat → List Char
  | [] => []
  | [b0] => [b64Char (b0 / 4), b64Char (b0 % 4 * 16), '=', '=']
  | [b0, b1] => [b64Char (b0 / 4), b64Char (b0 % 4 * 16 + b1 / 16), b64Char (b1 % 16 * 4), '=']
  | b0 :: b1 :: b2 :: rest =>
      b64Char (b0 / 4) :: b64Char (b0 % 4 * 16 + b1 / 16) ::
        b64Char (b1 % 16 * 4 + b2 / 64) :: b64Char (b2 % 64) :: base64EncodeChars rest

def base64Encode (bs : List Nat) : String := String.mk (base64EncodeChars bs)

/-- Packs sextets back into bytes (a dangling final sextet yields nothing,
as in the host decoder). -/
def b64Group : List Nat → List Nat
  | s0 :: s1 :: s2 :: s3 :: rest =>
      (s0 * 4 + s1 / 16) :: (s1 % 16 * 16 + s2 / 4) :: (s2 % 4 * 64 + s3) :: b64Group rest
  | [s0, s1, s2] => [s0 * 4 + s1 / 16, s1 % 16 * 16 + s2 / 4]
  | [s0, s1] => [s0 * 4 + s1 / 16]
  | _ => []

/-- `Buffer.from(string, "base64")` — lenient base64 decoding: non-alphabet
characters are skipped, then sextets are packed into bytes. -/
def base64Decode (s : String) : List Nat := b64Group (s.data.filterMap b64Val)

theorem b64Val_b64Char (m : Nat) (h : m < 64) : b64Val (b64Char m) = some m := by
  rw [b64Char, b64Val]
  by_cases h1 : m < 26
  · rw [if_pos h1, charToNat_ofNat (65 + m) (Or.inl (by omega))]
    rw [if_pos (by omega)]
    simp
  · by_cases h2 : m < 52
    · rw [if_neg h1, if_pos h2, charToNat_ofNat (97 + (m - 26)) (Or.inl (by omega))]
      rw [if_neg (by omega), if_pos (by omega)]
      simp
      omega
    · by_cases h3 : m < 62
      · rw [if_neg h1, if_neg h2, if_pos h3, charToNat_ofNat (48 + (m - 52)) (Or.inl (by omega))]
        rw [if_neg (by omega), if_neg (by omega), if_pos (by omega)]
        simp
        omega
      · by_cases h4 : m = 62
        · rw [if_neg h1, if_neg h2, if_neg h3, if_pos h4, charToNat_ofNat 43 (Or.inl (by omega))]
          rw [if_neg (by omega), if_neg (by omega), if_neg (by omega), if_pos rfl, h4]
        · rw [if_neg h1, if_neg h2, if_neg h3, if_neg h4, charToNat_ofNat 47 (Or.inl (by omega))]
          have h5 : m = 63 := by omega
          rw [if_neg (by omega), if_neg (by omega), if_neg (by omega),
            if_neg (by omega), if_pos rfl, h5]

theorem b64Val_pad : b64Val '=' = none := by decide

/-- Decoding base64-encoded bytes yields the bytes back. -/
theorem base64_roundtrip (bs : List Nat) (h : ∀ b ∈ bs, b < 256) :
    base64Decode (base64Encode bs) = bs := by
  rw [base64Decode, base64Encode]
  show b64Group ((base64EncodeChars bs).filterMap b64Val) = bs
  induction bs using base64EncodeChars.induct with
  | case1 => simp [base64EncodeChars, b64Group]
  | case2 b0 =>
    have hb0 : b0 < 256 := h b0 (by simp)
    rw [base64EncodeChars]
    simp [List.filterMap_cons, b64Val_b64Char (b0 / 4) (by omega),
      b64Val_b64Char (b0 % 4 * 16) (by omega), b64Val_pad, b64Group]
    omega
  | case3 b0 b1 =>
    have hb0 : b0 < 256 := h b0 (by simp)
    have hb1 : b1 < 256 := h b1 (by simp)
    rw [base64EncodeChars]
    simp [List.filterMap_cons, b64Val_b64Char (b0 / 4) (by omega),
      b64Val_b64Char (b0 % 4 * 16 + b1 / 16) (by omega),
      b64Val_b64Char (b1 % 16 * 4) (by omega), b64Val_pad, b64Group]
    omega
  | case4 b0 b1 b2 rest ih =>
    have hb0 : b0 < 256 := h b0 (by simp)
    have hb1 : b1 < 256 := h b1 (by simp)
    have hb2 : b2 < 256 := h b2 (by simp)
    have ih2 := ih (fun b hb => h b (by simp [hb]))
    rw [base64EncodeChars]
    simp only [List.filterMap_cons, b64Val_b64Char (b0 / 4) (by omega),
      b64Val_b64Char (b0 % 4 * 16 + b1 / 16) (by omega),
      b64Val_b64Char (b1 % 16 * 4 + b2 / 64) (by omega),
      b64Val_b64Char (b2 % 64) (by omega), b64Group]
    rw [ih2]
    have e0 : b0 / 4 * 4 + (b0 % 4 * 16 + b1 / 16) / 16 = b0 := by omega
    have e1 : (b0 % 4 * 16 + b1 / 16) % 16 * 16 + (b1 % 16 * 4 + b2 / 64) / 4 = b1 := by omega
    have e2 : (b1 % 16 * 4 + b2 / 64) % 4 * 64 + b2 % 64 = b2 := by omega
    rw [e0, e1, e2]

/-! ### The converter (`MoveBinaryData.execute`) -/

/-- The option collection (node parameter `options`, fetched once per run at
index 0).  Absent members are `none`/`false`, matching the empty default. -/
structure Options where
  encoding : Option String
  jsonParse : Bool
  keepSource : Bool
  mimeType : Option String
  useRawData : Bool

/-- The node configuration.  The spec (section 4.1) resolves configuration
once per batch run; `sourceKey` / `destinationKey` are dot-paths, carried
pre-split into segments (section 6 path syntax). -/
structure Config where
  mode : String
  setAllData : Bool
  convertAllData : Bool
  sourceKey : List String
  destinationKey : List String
  options : Options

/-- One record (`INodeExecutionData`): a structured value and an optional
binary mapping. -/
structure Item where
  json : JValue
  binary : Option JValue

/-- What `execute` can throw: the unknown-mode `Error`, `JSON.parse` syntax
errors, and `Buffer`/property type errors. -/
inductive ExecError where
  | parseError (msg : String)
  | typeError (msg : String)
  | unknownMode (mode : String)

/-- A double quote, as a string. -/
def quoteS : String := String.mk [dq]

/-- The user-visible message of a thrown error; the unknown-mode template is
line 348's. -/
def errMessage : ExecError → String
  | .parseError m => m
  | .typeError m => m
  | .unknownMode m => "The operation " ++ quoteS ++ m ++ quoteS ++ " is not known!"

/-- JS `x || d` for option strings: `undefined` and the empty string are
falsy, so both fall back to the default. -/
def jsDefault (o : Option String) (d : String) : String :=
  match o with
  | some s => if s = "" then d else s
  | none => d

/-- `value.data` as consumed by `Buffer.from(value.data, "base64")` (line
270): the property must be a text value, otherwise the host throws a
TypeError (property access on null, a missing `data`, or a non-string
`data`; payload byte arrays are not modelled — spec section 3 fixes a
payload's `data` to a base64 string). -/
def getDataField (v : JValue) : Option String :=
  match v with
  | .obj fs =>
      match lookupField fs "data" with
      | some (.str s) => some s
      | _ => none
  | _ => none

/-- `buffer.toString(encoding)` (line 270).  Modelled from the spec: UTF-8 is
decoded (leniently, as the host does); any other encoding name surfaces as a
record-level error per spec section 7 EncodingFailure ("the requested text
encoding is unrecognized ... surfaced as a record-level error"). -/
def bufferToString (bytes : List Nat) (enc : String) : Except ExecError String :=
  if enc = "utf8" ∨ enc = "utf-8" then .ok (utf8Decode bytes)
  else .error (.typeError ("Unknown encoding: " ++ enc))

/-- `Buffer.from(value)` on the raw-data path (line 324 with
`useRawData=true`): a text value gives its UTF-8 bytes; any other value
throws a TypeError.  Modelled from the spec (section 4.1 step 2: the caller
is responsible for the raw value being byte-representable; the host's
byte-array acceptance is not modelled). -/
def rawBytes (v : JValue) : Except ExecError (List Nat) :=
  match v with
  | .str s => .ok (utf8Encode s)
  | _ => .error (.typeError "Buffer.from: raw value is not byte-representable")

/-- Loop body for mode `binaryToJson` (lines 258-294). -/
def binaryToJsonItem (cfg : Config) (item : Item) : Except ExecError (Option Item) :=
  match item.binary with
  | none => .ok none
  | some bin =>
    match lodashGet bin cfg.sourceKey with
    | none => .ok none
    | some value =>
      let encoding := jsDefault cfg.options.encoding "utf8"
      match getDataField value with
      | none => .error (.typeError "Buffer.from: payload data is not a string")
      | some dataStr =>
        match bufferToString (base64Decode dataStr) encoding with
        | .error e => .error e
        | .ok convertedValue =>
          if cfg.setAllData then
            match JSONparse convertedValue with
            | .error msg => .error (.parseError msg)
            | .ok parsed =>
              .ok (some { json := parsed
                          binary := some (if cfg.options.keepSource then bin
                            else lodashUnset (deepCopy bin) cfg.sourceKey) })
          else
            match (if cfg.options.jsonParse then JSONparse convertedValue
                else .ok (.str convertedValue) : Except String JValue) with
            | .error msg => .error (.parseError msg)
            | .ok cv =>
              .ok (some { json := lodashSet (deepCopy item.json) cfg.destinationKey cv
                          binary := some (if cfg.options.keepSource then bin
                            else lodashUnset (deepCopy bin) cfg.sourceKey) })

/-- Loop body for mode `jsonToBinary` (lines 296-346). -/
def jsonToBinaryItem (cfg : Config) (item : Item) : Except ExecError (Option Item) :=
  match (if cfg.convertAllData then some item.json
      else lodashGet item.json cfg.sourceKey) with
  | none => .ok none
  | some value =>
    let binBase : JValue :=
      match item.binary with
      | some b => deepCopy b
      | none => .obj []
    match (if cfg.options.useRawData then rawBytes value
        else .ok (utf8Encode (JSONstringify value)) : Except ExecError (List Nat)) with
    | .error e => .error e
    | .ok bytes =>
      let convertedValue : JValue := .obj
        [("data", .str (base64Encode bytes)),
         ("mimeType", .str (jsDefault cfg.options.mimeType "application/json"))]
      let newBinary := lodashSet binBase cfg.destinationKey convertedValue
      let newJson : JValue :=
        if cfg.options.keepSource then item.json
        else if cfg.convertAllData then .obj []
        else lodashUnset (deepCopy item.json) cfg.sourceKey
      .ok (some { json := newJson, binary := some newBinary })

/-- One iteration of the `execute` loop (lines 250-352): a skipped record is
`ok none`, a converted record is `ok (some out)`, a throw is `error`. -/
def convertItem (cfg : Config) (item : Item) : Except ExecError (Option Item) :=
  if cfg.mode = "binaryToJson" then binaryToJsonItem cfg item
  else if cfg.mode = "jsonToBinary" then jsonToBinaryItem cfg item
  else .error (.unknownMode cfg.mode)

/-- `MoveBinaryData.execute` (lines 238-355) over a batch: converted items
are pushed in input order; the first thrown error aborts the whole call. -/
def execute (cfg : Config) (items : List Item) : Except ExecError (List Item) :=
  match items with
  | [] => .ok []
  | item :: rest =>
    match convertItem cfg item with
    | .error e => .error e
    | .ok r =>
      match execute cfg rest with
      | .error e => .error e
      | .ok tail =>
        .ok (match r with
          | none => tail
          | some out => out :: tail)

/-- The record's requested source is absent (spec section 7 SourceNotFound):
in `binaryToJson`, no binary side or nothing at `sourceKey`; in
`jsonToBinary`, a single-key conversion with nothing at `sourceKey`. -/
def sourceAbsent (cfg : Config) (it : Item) : Bool :=
  if cfg.mode = "binaryToJson" then
    match it.binary with
    | none => true
    | some bin => (lodashGet bin cfg.sourceKey).isNone
  else if cfg.mode = "jsonToBinary" then
    !cfg.convertAllData && (lodashGet it.json cfg.sourceKey).isNone
  else false

/-! ### Path-addressing laws (lodash get / set / unset) -/

/-- A successful `get` forces a nonempty path and an object root. -/
theorem lodashGet_some_obj (v : JValue) (p : List String) (w : JValue)
    (h : lodashGet v p = some w) : p ≠ [] ∧ ∃ fs, v = .obj fs := by
  cases p with
  | nil => simp [lodashGet] at h
  | cons k ks =>
    refine ⟨by simp, ?_⟩
    cases v <;> simp [lodashGet, getSub] at h ⊢

theorem getSub_set (p : List String) (x : JValue) :
    ∀ fs, p ≠ [] → getSub (lodashSet (.obj fs) p x) p = some x := by
  induction p with
  | nil => intro fs h; exact absurd rfl h
  | cons k p2 ih =>
    intro fs _
    cases p2 with
    | nil => simp [lodashSet, getSub, lookupField_put_self]
    | cons k2 p3 =>
      cases hl : lookupField fs k with
      | none =>
        simp [lodashSet, getSub, hl, lookupField_put_self]
        exact ih [] (by simp)
      | some w =>
        cases w with
        | obj gs =>
          simp [lodashSet, getSub, hl, lookupField_put_self]
          exact ih gs (by simp)
        | null =>
          simp [lodashSet, getSub, hl, lookupField_put_self]
          exact ih [] (by simp)
        | bool b =>
          simp [lodashSet, getSub, hl, lookupField_put_self]
          exact ih [] (by simp)
        | num n =>
          simp [lodashSet, getSub, hl, lookupField_put_self]
          exact ih [] (by simp)
        | str s =>
          simp [lodashSet, getSub, hl, lookupField_put_self]
          exact ih [] (by simp)
        | arr es =>
          simp [lodashSet, getSub, hl, lookupField_put_self]
          exact ih [] (by simp)

/-- `get` after `set` at the same (nonempty) path on an object root yields
the written value. -/
theorem lodashGet_set (v : JValue) (p : List String) (x : JValue) (hp : p ≠ [])
    (hobj : ∃ fs, v = .obj fs) : lodashGet (lodashSet v p x) p = some x := by
  obtain ⟨fs, rfl⟩ := hobj
  cases p with
  | nil => exact absurd rfl hp
  | cons k ks =>
    rw [lodashGet]
    exact getSub_set (k :: ks) x fs (by simp)

theorem getSub_set_empty (p : List String) (x : JValue) :
    ∀ q, ¬p <+: q → ¬q <+: p → q ≠ [] →
      getSub (lodashSet (.obj []) p x) q = none := by
  induction p with
  | nil => intro q hpq _ _; exact absurd (List.nil_prefix) hpq
  | cons k p2 ih =>
    intro q hpq hqp hq
    cases q with
    | nil => exact absurd rfl hq
    | cons q1 q2 =>
      by_cases hk : q1 = k
      · subst hk
        have hp2 : ¬p2 <+: q2 := fun h => hpq (List.cons_prefix_cons.mpr ⟨rfl, h⟩)
        have hq2 : ¬q2 <+: p2 := fun h => hqp (List.cons_prefix_cons.mpr ⟨rfl, h⟩)
        have hq2ne : q2 ≠ [] := by
          intro h
          subst h
          exact hqp (List.cons_prefix_cons.mpr ⟨rfl, List.nil_prefix⟩)
        have hp2ne : p2 ≠ [] := by
          intro h
          subst h
          exact hpq (List.cons_prefix_cons.mpr ⟨rfl, List.nil_prefix⟩)
        cases p2 with
        | nil => exact absurd rfl hp2ne
        | cons k2 p3 =>
          simp [lodashSet, getSub, putField, lookupField]
          exact ih q2 hp2 hq2 hq2ne
      · have hk2 : ¬(k = q1) := fun h => hk h.symm
        cases p2 with
        | nil => simp [lodashSet, getSub, putField, lookupField, hk2]
        | cons k2 p3 => simp [lodashSet, getSub, putField, lookupField, hk2]

/-- `set` leaves every path that neither contains nor is contained in the
written path unchanged. -/
theorem lodashGet_set_frame (v : JValue) (p : List String) (x : JValue) :
    ∀ q, ¬p <+: q → ¬q <+: p →
      lodashGet (lodashSet v p x) q = lodashGet v q := by
  induction p generalizing v with
  | nil => intro q hpq _; exact absurd (List.nil_prefix) hpq
  | cons k p2 ih =>
    intro q hpq hqp
    cases q with
    | nil => simp [lodashGet]
    | cons q1 q2 =>
      cases v with
      | obj fs =>
        by_cases hk : q1 = k
        · subst hk
          have hp2 : ¬p2 <+: q2 := fun h => hpq (List.cons_prefix_cons.mpr ⟨rfl, h⟩)
          have hq2 : ¬q2 <+: p2 := fun h => hqp (List.cons_prefix_cons.mpr ⟨rfl, h⟩)
          have hq2ne : q2 ≠ [] := by
            intro h
            subst h
            exact hqp (List.cons_prefix_cons.mpr ⟨rfl, List.nil_prefix⟩)
          have hp2ne : p2 ≠ [] := by
            intro h
            subst h
            exact hpq (List.cons_prefix_cons.mpr ⟨rfl, List.nil_prefix⟩)
          cases p2 with
          | nil => exact absurd rfl hp2ne
          | cons k2 p3 =>
            cases hl : lookupField fs q1 with
            | none =>
              simp [lodashSet, lodashGet, getSub, lookupField_put_self, hl]
              exact getSub_set_empty (k2 :: p3) x q2 hp2 hq2 hq2ne
            | some w =>
              cases w with
              | obj gs =>
                simp [lodashSet, lodashGet, getSub, lookupField_put_self, hl]
                have := ih (.obj gs) q2 hp2 hq2
                cases q2 with
                | nil => exact absurd rfl hq2ne
                | cons r1 r2 => simpa [lodashGet] using this
              | null =>
                simp [lodashSet, lodashGet, getSub, lookupField_put_self, hl]
                cases q2 with
                | nil => exact absurd rfl hq2ne
                | cons r1 r2 =>
                  simp [getSub]
                  exact getSub_set_empty (k2 :: p3) x (r1 :: r2) hp2 hq2 (by simp)
              | bool b =>
                simp [lodashSet, lodashGet, getSub, lookupField_put_self, hl]
                cases q2 with
                | nil => exact absurd rfl hq2ne
                | cons r1 r2 =>
                  simp [getSub]
                  exact getSub_set_empty (k2 :: p3) x (r1 :: r2) hp2 hq2 (by simp)
              | num n =>
                simp [lodashSet, lodashGet, getSub, lookupField_put_self, hl]
                cases q2 with
                | nil => exact absurd rfl hq2ne
                | cons r1 r2 =>
                  simp [getSub]
                  exact getSub_set_empty (k2 :: p3) x (r1 :: r2) hp2 hq2 (by simp)
              | str s =>
                simp [lodashSet, lodashGet, getSub, lookupField_put_self, hl]
                cases q2 with
                | nil => exact absurd rfl hq2ne
                | cons r1 r2 =>
                  simp [getSub]
                  exact getSub_set_empty (k2 :: p3) x (r1 :: r2) hp2 hq2 (by simp)
              | arr es =>
                simp [lodashSet, lodashGet, getSub, lookupField_put_self, hl]
                cases q2 with
                | nil => exact absurd rfl hq2ne
                | cons r1 r2 =>
                  simp [getSub]
                  exact getSub_set_empty (k2 :: p3) x (r1 :: r2) hp2 hq2 (by simp)
        · cases p2 with
          | nil =>
            simp [lodashSet, lodashGet, getSub, lookupField_put_ne fs k q1 x hk]
          | cons k2 p3 =>
            simp [lodashSet, lodashGet, getSub, lookupField_put_ne fs k q1 _ hk]
      | null => simp [lodashSet]
      | bool b => simp [lodashSet]
      | num n => simp [lodashSet]
      | str s => simp [lodashSet]
      | arr es => simp [lodashSet]

theorem getSub_unset_self (p : List String) :
    ∀ v : JValue, p ≠ [] → getSub (lodashUnset v p) p = none := by
  induction p with
  | nil => intro v h; exact absurd rfl h
  | cons k p2 ih =>
    intro v _
    cases v with
    | obj fs =>
      cases p2 with
      | nil => simp [lodashUnset, getSub, lookupField_remove_self]
      | cons k2 p3 =>
        cases hl : lookupField fs k with
        | none => simp [lodashUnset, getSub, hl]
        | some child =>
          simp [lodashUnset, getSub, hl, lookupField_put_self]
          exact ih child (by simp)
    | null => simp [lodashUnset, getSub]
    | bool b => simp [lodashUnset, getSub]
    | num n => simp [lodashUnset, getSub]
    | str s => simp [lodashUnset, getSub]
    | arr es => simp [lodashUnset, getSub]

/-- After `unset` at `p`, nothing is found at `p`. -/
theorem lodashGet_unset_self (v : JValue) (p : List String) :
    lodashGet (lodashUnset v p) p = none := by
  cases p with
  | nil => simp [lodashGet]
  | cons k ks =>
    rw [lodashGet]
    exact getSub_unset_self (k :: ks) v (by simp)

/-- `unset` leaves every path that neither contains nor is contained in the
removed path unchanged. -/
theorem lodashGet_unset_frame (v : JValue) (p : List String) :
    ∀ q, ¬p <+: q → ¬q <+: p →
      lodashGet (lodashUnset v p) q = lodashGet v q := by
  induction p generalizing v with
  | nil => intro q hpq _; exact absurd (List.nil_prefix) hpq
  | cons k p2 ih =>
    intro q hpq hqp
    cases q with
    | nil => simp [lodashGet]
    | cons q1 q2 =>
      cases v with
      | obj fs =>
        by_cases hk : q1 = k
        · subst hk
          have hp2 : ¬p2 <+: q2 := fun h => hpq (List.cons_prefix_cons.mpr ⟨rfl, h⟩)
          have hq2 : ¬q2 <+: p2 := fun h => hqp (List.cons_prefix_cons.mpr ⟨rfl, h⟩)
          have hq2ne : q2 ≠ [] := by
            intro h
            subst h
            exact hqp (List.cons_prefix_cons.mpr ⟨rfl, List.nil_prefix⟩)
          have hp2ne : p2 ≠ [] := by
            intro h
            subst h
            exact hpq (List.cons_prefix_cons.mpr ⟨rfl, List.nil_prefix⟩)
          cases p2 with
          | nil => exact absurd rfl hp2ne
          | cons k2 p3 =>
            cases hl : lookupField fs q1 with
            | none => simp [lodashUnset, hl]
            | some child =>
              simp [lodashUnset, lodashGet, getSub, lookupField_put_self, hl]
              have := ih child q2 hp2 hq2
              cases q2 with
              | nil => exact absurd rfl hq2ne
              | cons r1 r2 => simpa [lodashGet] using this
        · cases p2 with
          | nil =>
            simp [lodashUnset, lodashGet, getSub, lookupField_remove_ne fs k q1 hk]
          | cons k2 p3 =>
            cases hl : lookupField fs k with
            | none => simp [lodashUnset, hl]
            | some child =>
              simp [lodashUnset, lodashGet, getSub, hl, lookupField_put_ne fs k q1 _ hk]
      | null => simp [lodashUnset]
      | bool b => simp [lodashUnset]
      | num n => simp [lodashUnset]
      | str s => simp [lodashUnset]
      | arr es => simp [lodashUnset]

/-! ### Behaviour of the batch loop -/

/-- A record is skipped (no output, no error) exactly when its requested
source is absent. -/
theorem convertItem_ok_none_iff (cfg : Config) (it : Item) :
    convertItem cfg it = .ok none ↔ sourceAbsent cfg it = true := by
  rw [convertItem, sourceAbsent]
  by_cases hm : cfg.mode = "binaryToJson"
  · simp only [if_pos hm]
    rw [binaryToJsonItem]
    cases hbin : it.binary with
    | none => simp
    | some bin =>
      cases hget : lodashGet bin cfg.sourceKey with
      | none => simp [hget]
      | some value =>
        cases hdf : getDataField value with
        | none => simp [hget, hdf]
        | some d =>
          cases hbts : bufferToString (base64Decode d)
              (jsDefault cfg.options.encoding "utf8") with
          | error e => simp [hget, hdf, hbts]
          | ok cv =>
            by_cases hsa : cfg.setAllData
            · cases hp : JSONparse cv <;> simp [hget, hdf, hbts, hsa, hp]
            · cases hp : (if cfg.options.jsonParse then JSONparse cv
                  else .ok (.str cv) : Except String JValue) <;>
                simp [hget, hdf, hbts, hsa, hp]
  · by_cases hm2 : cfg.mode = "jsonToBinary"
    · simp only [if_neg hm, if_pos hm2]
      rw [jsonToBinaryItem]
      by_cases hca : cfg.convertAllData
      · cases hrb : (if cfg.options.useRawData then rawBytes it.json
            else .ok (utf8Encode (JSONstringify it.json)) : Except ExecError (List Nat)) with
        | error e => simp [hca, hrb]
        | ok bytes => simp [hca, hrb]
      · cases hget : lodashGet it.json cfg.sourceKey with
        | none => simp [hca, hget]
        | some value =>
          cases hrb : (if cfg.options.useRawData then rawBytes value
              else .ok (utf8Encode (JSONstringify value)) : Except ExecError (List Nat)) with
          | error e => simp [hca, hget, hrb]
          | ok bytes => simp [hca, hget, hrb]
    · simp [hm, hm2]

/-- The empty batch: the loop body never runs, so nothing is converted and
nothing can be thrown (the unknown-mode check lives inside the loop). -/
theorem execute_nil (cfg : Config) : execute cfg [] = .ok [] := rfl

/-- A successful run returns exactly the filter-map of the per-record
results, in input order. -/
theorem execute_ok_filterMap (cfg : Config) : ∀ items out, execute cfg items = .ok out →
    out = items.filterMap (fun it => match convertItem cfg it with
      | .ok r => r
      | .error _ => none) := by
  intro items
  induction items with
  | nil =>
    intro out h
    rw [execute] at h
    simp at h
    subst h
    simp
  | cons item rest ih =>
    intro out h
    rw [execute] at h
    cases hc : convertItem cfg item with
    | error e => rw [hc] at h; simp at h
    | ok r =>
      rw [hc] at h
      cases he : execute cfg rest with
      | error e => rw [he] at h; simp at h
      | ok tail =>
        rw [he] at h
        simp at h
        rw [List.filterMap_cons]
        cases r with
        | none => simp [hc, ← h, ih tail he]
        | some o => simp [hc, ← h, ih tail he]

/-- A successful run means no record threw. -/
theorem execute_ok_each (cfg : Config) : ∀ items out, execute cfg items = .ok out →
    ∀ it ∈ items, ∃ r, convertItem cfg it = .ok r := by
  intro items
  induction items with
  | nil =>
    intro out _ it hit
    simp at hit
  | cons item rest ih =>
    intro out h it hit
    rw [execute] at h
    cases hc : convertItem cfg item with
    | error e => rw [hc] at h; simp at h
    | ok r =>
      rw [hc] at h
      cases he : execute cfg rest with
      | error e => rw [he] at h; simp at h
      | ok tail =>
        rcases List.mem_cons.mp hit with rfl | hmem
        · exact ⟨r, hc⟩
        · exact ih tail he it hmem

/-- The first thrown error aborts the whole batch: records before it may have
converted, records after it are never reached, and no output batch is
produced. -/
theorem execute_error_propagates (cfg : Config) (bad : Item) (post : List Item)
    (e : ExecError) : ∀ pre : List Item,
    (∀ it ∈ pre, ∃ r, convertItem cfg it = .ok r) →
    convertItem cfg bad = .error e →
    execute cfg (pre ++ bad :: post) = .error e := by
  intro pre
  induction pre with
  | nil =>
    intro _ hbad
    rw [List.nil_append, execute, hbad]
  | cons p pre2 ih =>
    intro hpre hbad
    obtain ⟨r, hr⟩ := hpre p (by simp)
    rw [List.cons_append, execute, hr, ih (fun it hit => hpre it (by simp [hit])) hbad]

/-- When every record converts to an output, the run succeeds and the output
batch has the input batch's length. -/
theorem execute_all_some (cfg : Config) : ∀ items : List Item,
    (∀ it ∈ items, ∃ o, convertItem cfg it = .ok (some o)) →
    ∃ out, execute cfg items = .ok out ∧ out.length = items.length := by
  intro items
  induction items with
  | nil => exact fun _ => ⟨[], rfl, rfl⟩
  | cons item rest ih =>
    intro h
    obtain ⟨o, ho⟩ := h item (by simp)
    obtain ⟨out, hout, hlen⟩ := ih (fun it hit => h it (by simp [hit]))
    refine ⟨o :: out, ?_, by simp [hlen]⟩
    rw [execute, ho, hout]

/-! ### Shapes of successful conversions -/

/-- The binary base the payload is written into (line 311-317): a copy of the
record's binary side, or a fresh empty object. -/
def binBaseOf (item : Item) : JValue :=
  match item.binary with
  | some b => b
  | none => .obj []

/-- Evaluation of the `binaryToJson` body in single-key mode with the
default options (`jsonParse` unset, `encoding` omitted). -/
theorem binaryToJsonItem_eval (cfg : Config) (item : Item) (bin value : JValue)
    (d : String)
    (hbin : item.binary = some bin) (hget : lodashGet bin cfg.sourceKey = some value)
    (hdf : getDataField value = some d) (hsa : cfg.setAllData = false)
    (hjp : cfg.options.jsonParse = false) (henc : cfg.options.encoding = none) :
    binaryToJsonItem cfg item = .ok (some
      ⟨lodashSet item.json cfg.destinationKey (.str (utf8Decode (base64Decode d))),
       some (if cfg.options.keepSource then bin
         else lodashUnset bin cfg.sourceKey)⟩) := by
  rw [binaryToJsonItem]
  simp only [hbin, hget, hdf]
  have he : jsDefault cfg.options.encoding "utf8" = "utf8" := by rw [henc]; rfl
  rw [he]
  simp [bufferToString, hsa, hjp, deepCopy_eq]

/-- Evaluation of the `binaryToJson` body in single-key mode with `jsonParse`
set and the decoded text parsing successfully (`encoding` omitted). -/
theorem binaryToJsonItem_eval_parse (cfg : Config) (item : Item) (bin value w : JValue)
    (d : String)
    (hbin : item.binary = some bin) (hget : lodashGet bin cfg.sourceKey = some value)
    (hdf : getDataField value = some d) (hsa : cfg.setAllData = false)
    (hjp : cfg.options.jsonParse = true) (henc : cfg.options.encoding = none)
    (hparse : JSONparse (utf8Decode (base64Decode d)) = .ok w) :
    binaryToJsonItem cfg item = .ok (some
      ⟨lodashSet item.json cfg.destinationKey w,
       some (if cfg.options.keepSource then bin
         else lodashUnset bin cfg.sourceKey)⟩) := by
  rw [binaryToJsonItem]
  simp only [hbin, hget, hdf]
  have he : jsDefault cfg.options.encoding "utf8" = "utf8" := by rw [henc]; rfl
  rw [he]
  simp [bufferToString, hsa, hjp, hparse, deepCopy_eq]

/-- Evaluation of the `jsonToBinary` body when the source value is present
and is serialized (`useRawData` unset). -/
theorem jsonToBinaryItem_eval (cfg : Config) (item : Item) (value : JValue)
    (hval : (if cfg.convertAllData then some item.json
      else lodashGet item.json cfg.sourceKey) = some value)
    (hraw : cfg.options.useRawData = false) :
    jsonToBinaryItem cfg item = .ok (some
      ⟨(if cfg.options.keepSource then item.json
        else if cfg.convertAllData then .obj []
        else lodashUnset item.json cfg.sourceKey),
       some (lodashSet (binBaseOf item) cfg.destinationKey
        (.obj [("data", .str (base64Encode (utf8Encode (JSONstringify value)))),
               ("mimeType", .str (jsDefault cfg.options.mimeType "application/json"))]))⟩) := by
  rw [jsonToBinaryItem]
  simp only [hval]
  cases hb : item.binary with
  | none => simp [hraw, deepCopy_eq, binBaseOf, hb]
  | some b => simp [hraw, deepCopy_eq, binBaseOf, hb]

/-- Inversion of a successful `binaryToJson` conversion. -/
theorem binaryToJsonItem_ok_some (cfg : Config) (item out : Item)
    (h : binaryToJsonItem cfg item = .ok (some out)) :
    ∃ bin value d cv, item.binary = some bin ∧
      lodashGet bin cfg.sourceKey = some value ∧
      getDataField value = some d ∧
      bufferToString (base64Decode d) (jsDefault cfg.options.encoding "utf8") = .ok cv ∧
      out.binary = some (if cfg.options.keepSource then bin
        else lodashUnset bin cfg.sourceKey) ∧
      ((cfg.setAllData = true ∧ JSONparse cv = .ok out.json) ∨
       (cfg.setAllData = false ∧ ∃ cv2,
         (if cfg.options.jsonParse then JSONparse cv
            else .ok (.str cv) : Except String JValue) = .ok cv2 ∧
         out.json = lodashSet item.json cfg.destinationKey cv2)) := by
  rw [binaryToJsonItem] at h
  cases hbin : item.binary with
  | none => simp only [hbin] at h; simp at h
  | some bin =>
    simp only [hbin] at h
    cases hget : lodashGet bin cfg.sourceKey with
    | none => simp only [hget] at h; simp at h
    | some value =>
      simp only [hget] at h
      cases hdf : getDataField value with
      | none => simp only [hdf] at h; simp at h
      | some d =>
        simp only [hdf] at h
        cases hbts : bufferToString (base64Decode d)
            (jsDefault cfg.options.encoding "utf8") with
        | error e => simp only [hbts] at h; simp at h
        | ok cv =>
          simp only [hbts] at h
          refine ⟨bin, value, d, cv, rfl, hget, hdf, hbts, ?_⟩
          by_cases hsa : cfg.setAllData
          · rw [if_pos hsa] at h
            cases hp : JSONparse cv with
            | error e => simp only [hp] at h; simp at h
            | ok parsed =>
              simp only [hp] at h
              simp [deepCopy_eq] at h
              subst h
              exact ⟨rfl, Or.inl ⟨hsa, rfl⟩⟩
          · rw [if_neg hsa] at h
            cases hp : (if cfg.options.jsonParse then JSONparse cv
                else .ok (.str cv) : Except String JValue) with
            | error e => simp only [hp] at h; simp at h
            | ok cv2 =>
              simp only [hp] at h
              simp [deepCopy_eq] at h
              subst h
              exact ⟨rfl, Or.inr ⟨by simpa using hsa, cv2, rfl, rfl⟩⟩

/-- Inversion of a successful `jsonToBinary` conversion. -/
theorem jsonToBinaryItem_ok_some (cfg : Config) (item out : Item)
    (h : jsonToBinaryItem cfg item = .ok (some out)) :
    ∃ value bytes, (if cfg.convertAllData then some item.json
        else lodashGet item.json cfg.sourceKey) = some value ∧
      (if cfg.options.useRawData then rawBytes value
        else .ok (utf8Encode (JSONstringify value)) : Except ExecError (List Nat)) = .ok bytes ∧
      out.binary = some (lodashSet (binBaseOf item) cfg.destinationKey
        (.obj [("data", .str (base64Encode bytes)),
               ("mimeType", .str (jsDefault cfg.options.mimeType "application/json"))])) ∧
      out.json = (if cfg.options.keepSource then item.json
        else if cfg.convertAllData then .obj []
        else lodashUnset item.json cfg.sourceKey) := by
  rw [jsonToBinaryItem] at h
  cases hval : (if cfg.convertAllData then some item.json
      else lodashGet item.json cfg.sourceKey) with
  | none => simp only [hval] at h; simp at h
  | some value =>
    simp only [hval] at h
    cases hrb : (if cfg.options.useRawData then rawBytes value
        else .ok (utf8Encode (JSONstringify value)) : Except ExecError (List Nat)) with
    | error e => simp only [hrb] at h; simp at h
    | ok bytes =>
      simp only [hrb] at h
      cases hb : item.binary with
      | none =>
        simp only [hb] at h
        simp [deepCopy_eq] at h
        subst h
        exact ⟨value, bytes, rfl, hrb, by simp [binBaseOf, hb], rfl⟩
      | some b =>
        simp only [hb] at h
        simp [deepCopy_eq] at h
        subst h
        exact ⟨value, bytes, rfl, hrb, by simp [binBaseOf, hb], rfl⟩

/-! ### The claims -/

/-- Claim C10 (confirmed): an empty input batch succeeds with an empty
output batch for every configuration — in particular for an unrecognized
mode, because the unknown-mode check sits inside the per-record loop and the
loop body never runs. -/
theorem c10_empty_batch_succeeds (cfg : Config) : execute cfg [] = .ok [] :=
  execute_nil cfg

/-- Configuration with an unrecognized mode, for C6. -/
def cfgC6 : Config :=
  ⟨"foo", true, true, ["data"], ["data"], ⟨none, false, false, none, false⟩⟩

/-- A record for C6's witness. -/
def itemC6 : Item := ⟨.obj [], none⟩

/-- Counterexample to claim C6 as stated: with the unrecognized mode "foo"
and an empty input batch, the conversion does not fail — it succeeds with an
empty output batch — so "for every input batch ... the whole conversion
fails" is false at this input. -/
theorem c6_counterexample :
    (cfgC6.mode ≠ "binaryToJson" ∧ cfgC6.mode ≠ "jsonToBinary") ∧
    execute cfgC6 [] = .ok [] := by
  exact ⟨⟨by decide, by decide⟩, rfl⟩

/-- Claim C6 (corrected, amended to nonempty batches): for every nonempty
input batch, an unrecognized mode makes the whole conversion fail with the
unknown-mode error, whose message names the bad mode value; no per-record
output is emitted. -/
theorem c6_unknown_mode_fails (cfg : Config) (items : List Item)
    (hne : items ≠ [])
    (h1 : cfg.mode ≠ "binaryToJson") (h2 : cfg.mode ≠ "jsonToBinary") :
    execute cfg items = .error (.unknownMode cfg.mode) ∧
    errMessage (.unknownMode cfg.mode) =
      "The operation " ++ quoteS ++ cfg.mode ++ quoteS ++ " is not known!" := by
  constructor
  · cases items with
    | nil => exact absurd rfl hne
    | cons item rest =>
      rw [execute]
      have hc : convertItem cfg item = .error (.unknownMode cfg.mode) := by
        rw [convertItem, if_neg h1, if_neg h2]
      rw [hc]
  · rfl

/-- Witness for C6's amended theorem at the concrete mode "foo" and a
one-record batch. -/
theorem c6_unknown_mode_fails_witness :
    execute cfgC6 [itemC6] = .error (.unknownMode "foo") ∧
    errMessage (.unknownMode "foo") =
      "The operation " ++ quoteS ++ "foo" ++ quoteS ++ " is not known!" :=
  c6_unknown_mode_fails cfgC6 [itemC6] (by simp) (by decide) (by decide)

/-- Configuration of the C7 scenario: StructuredToBinary, convert all data,
destination "data", no options. -/
def cfgC7 : Config :=
  ⟨"jsonToBinary", true, true, ["data"], ["data"], ⟨none, false, false, none, false⟩⟩

/-- The C7 scenario's input record. -/
def itemC7 : Item := ⟨.obj [("a", .num 1)], some (.obj [])⟩

/-- Claim C7 (confirmed): the spec's scenario — converting the record with
structured value mapping "a" to 1 and empty binary side under `cfgC7` yields
an empty structured value and one binary entry at "data" whose payload is
the base64 of the serialized text (concretely "eyJhIjoxfQ==") with mime type
"application/json". -/
theorem c7_scenario :
    convertItem cfgC7 itemC7 = .ok (some ⟨.obj [], some (.obj [("data", .obj
      [("data", .str "eyJhIjoxfQ=="), ("mimeType", .str "application/json")])])⟩) ∧
    "eyJhIjoxfQ==" = base64Encode (utf8Encode (JSONstringify (.obj [("a", .num 1)]))) :=
  ⟨rfl, rfl⟩

/-- Configuration for C1: BinaryToStructured with `setAllData`, all options
at their defaults. -/
def cfgC1 : Config :=
  ⟨"binaryToJson", true, false, ["data"], ["data"], ⟨none, false, false, none, false⟩⟩

/-- A record whose payload decodes to the text "x", which is not valid
structured data ("eA==" is base64 of "x"). -/
def itemC1bad : Item :=
  ⟨.obj [], some (.obj [("data", .obj
    [("data", .str "eA=="), ("mimeType", .str "text/plain")])])⟩

/-- A record with no binary side at all: its source is absent, so it is
dropped. -/
def itemC1skip : Item := ⟨.obj [], none⟩

/-- A record whose payload decodes to valid structured data ("e30=" is
base64 of the empty-object text). -/
def itemC1ok : Item :=
  ⟨.obj [], some (.obj [("data", .obj
    [("data", .str "e30="), ("mimeType", .str "application/json")])])⟩

/-- The output record C1's witness batch produces. -/
def outC1 : Item := ⟨.obj [], some (.obj [])⟩

/-- Counterexample to claim C1 as stated: a record whose requested source is
present (so the claim says it produces exactly one output record) can make
the whole conversion throw — here a payload that does not parse under
`setAllData` — so no output batch exists at all and the record produces no
output record. -/
theorem c1_counterexample :
    sourceAbsent cfgC1 itemC1bad = false ∧
    execute cfgC1 [itemC1bad] = .error (.parseError "Unexpected token in JSON") :=
  ⟨rfl, rfl⟩

/-- Claim C1 (corrected, amended with batch success): whenever the whole
conversion succeeds, the output batch is exactly the in-order filter-map of
the input batch — a record with an absent source produces no output record,
every other record produces exactly one, and the relative order of the
surviving outputs is the input order. -/
theorem c1_success_filter_map (cfg : Config) (items : List Item) (out : List Item)
    (h : execute cfg items = .ok out) :
    out = items.filterMap (fun it => match convertItem cfg it with
      | .ok r => r
      | .error _ => none) ∧
    ∀ it ∈ items, (sourceAbsent cfg it = true → convertItem cfg it = .ok none) ∧
      (sourceAbsent cfg it = false → ∃ o, convertItem cfg it = .ok (some o)) := by
  refine ⟨execute_ok_filterMap cfg items out h, ?_⟩
  intro it hit
  obtain ⟨r, hr⟩ := execute_ok_each cfg items out h it hit
  constructor
  · intro ha
    exact (convertItem_ok_none_iff cfg it).mpr ha
  · intro ha
    cases r with
    | none =>
      have habs := (convertItem_ok_none_iff cfg it).mp hr
      rw [habs] at ha
      cases ha
    | some o => exact ⟨o, hr⟩

/-- Witness for C1's amended theorem: a two-record batch in which the first
record's source is absent (dropped) and the second converts; the output is
the filter-map and has length one. -/
theorem c1_success_filter_map_witness :
    execute cfgC1 [itemC1skip, itemC1ok] = .ok [outC1] ∧
    [outC1] = [itemC1skip, itemC1ok].filterMap (fun it => match convertItem cfgC1 it with
      | .ok r => r
      | .error _ => none) ∧
    sourceAbsent cfgC1 itemC1skip = true ∧
    convertItem cfgC1 itemC1skip = .ok none ∧
    sourceAbsent cfgC1 itemC1ok = false ∧
    convertItem cfgC1 itemC1ok = .ok (some outC1) := by
  have h := c1_success_filter_map cfgC1 [itemC1skip, itemC1ok] [outC1] rfl
  exact ⟨rfl, h.1, rfl, (h.2 itemC1skip (by simp)).1 rfl, rfl, rfl⟩

/-- Configuration for C3: BinaryToStructured with `setAllData`, defaults. -/
def cfgC3 : Config :=
  ⟨"binaryToJson", true, false, ["data"], ["data"], ⟨none, false, false, none, false⟩⟩

/-- A record that converts successfully ("e30=" is base64 of the
empty-object text). -/
def itemC3good : Item :=
  ⟨.obj [], some (.obj [("data", .obj
    [("data", .str "e30="), ("mimeType", .str "application/json")])])⟩

/-- A record whose decoded text "x" fails to parse ("eA==" is base64 of
"x"). -/
def itemC3bad : Item :=
  ⟨.obj [], some (.obj [("data", .obj
    [("data", .str "eA=="), ("mimeType", .str "text/plain")])])⟩

/-- Counterexample to claim C3 as stated: in the batch good-bad-good, the
third record would succeed on its own, yet the bad record's parse error
aborts the whole call — no output batch is produced, so the siblings do not
yield their outputs. -/
theorem c3_counterexample :
    convertItem cfgC3 itemC3good = .ok (some ⟨.obj [], some (.obj [])⟩) ∧
    convertItem cfgC3 itemC3bad = .error (.parseError "Unexpected token in JSON") ∧
    execute cfgC3 [itemC3good, itemC3bad, itemC3good] =
      .error (.parseError "Unexpected token in JSON") :=
  ⟨rfl, rfl, rfl⟩

/-- Claim C3 (corrected): a record's parse failure aborts the batch — the
first failing record's parse error becomes the result of the whole call, so
records after it are never converted and the outputs of records before it
are discarded (there is no per-record error reporting in the code). -/
theorem c3_parse_error_aborts_batch (cfg : Config) (pre : List Item) (bad : Item)
    (post : List Item) (msg : String)
    (hpre : ∀ it ∈ pre, ∃ r, convertItem cfg it = .ok r)
    (hbad : convertItem cfg bad = .error (.parseError msg)) :
    execute cfg (pre ++ bad :: post) = .error (.parseError msg) :=
  execute_error_propagates cfg bad post (.parseError msg) pre hpre hbad

/-- Witness for C3's amended theorem at the concrete good-bad-good batch. -/
theorem c3_parse_error_aborts_batch_witness :
    execute cfgC3 ([itemC3good] ++ itemC3bad :: [itemC3good]) =
      .error (.parseError "Unexpected token in JSON") :=
  c3_parse_error_aborts_batch cfgC3 [itemC3good] itemC3bad [itemC3good]
    "Unexpected token in JSON"
    (by
      intro it hit
      simp at hit
      subst hit
      exact ⟨some ⟨.obj [], some (.obj [])⟩, rfl⟩)
    rfl

/-- Claim C9 (confirmed): in StructuredToBinary mode with `convertAllData`,
the source value is the record's whole structured value and is always
present, so no record is ever skipped for a missing source; with the
`useRawData` option at its default (unset), every record converts, the run
succeeds and the output batch length equals the input batch length. -/
theorem c9_convert_all_never_dropped (cfg : Config) (items : List Item)
    (hm : cfg.mode = "jsonToBinary") (hca : cfg.convertAllData = true) :
    (∀ it : Item, convertItem cfg it ≠ .ok none) ∧
    (cfg.options.useRawData = false →
      ∃ out, execute cfg items = .ok out ∧ out.length = items.length) := by
  have hmode : ¬cfg.mode = "binaryToJson" := by rw [hm]; decide
  constructor
  · intro it hnone
    have habs := (convertItem_ok_none_iff cfg it).mp hnone
    rw [sourceAbsent, if_neg hmode, if_pos hm, hca] at habs
    simp at habs
  · intro hraw
    apply execute_all_some
    intro it _
    have hval : (if cfg.convertAllData then some it.json
        else lodashGet it.json cfg.sourceKey) = some it.json := by simp [hca]
    have hconv : convertItem cfg it = jsonToBinaryItem cfg it := by
      rw [convertItem, if_neg hmode, if_pos hm]
    exact ⟨_, by rw [hconv]; exact jsonToBinaryItem_eval cfg it it.json hval hraw⟩

/-- Configuration for C9's witness: StructuredToBinary, convert all data,
defaults. -/
def cfgC9 : Config :=
  ⟨"jsonToBinary", true, true, ["unused"], ["data"], ⟨none, false, false, none, false⟩⟩

/-- C9's witness record. -/
def itemC9 : Item := ⟨.obj [("a", .num 1)], none⟩

/-- The record C9's witness batch produces, twice. -/
def outC9 : Item :=
  ⟨.obj [], some (.obj [("data", .obj
    [("data", .str "eyJhIjoxfQ=="), ("mimeType", .str "application/json")])])⟩

/-- Witness for C9 at a concrete two-record batch: nothing is dropped and
the output has the input's length. -/
theorem c9_convert_all_never_dropped_witness :
    convertItem cfgC9 itemC9 ≠ .ok none ∧
    execute cfgC9 [itemC9, itemC9] = .ok [outC9, outC9] ∧
    ([outC9, outC9] : List Item).length = ([itemC9, itemC9] : List Item).length := by
  have h := c9_convert_all_never_dropped cfgC9 [itemC9, itemC9] rfl rfl
  exact ⟨h.1 itemC9, rfl, rfl⟩

/-- Claim C4 (confirmed): for every record whose conversion succeeds, with
`keepSource` the output's source side is the input's source side unchanged
(aliased); without it, the output's source side is exactly the input's with
the source location removed — nothing is found there afterwards, and every
path neither containing nor contained in the source path reads unchanged
(with `convertAllData`, the source is the whole structured value and the
output structured value is the empty map). -/
theorem c4_keep_source (cfg : Config) (item out : Item)
    (h : convertItem cfg item = .ok (some out)) :
    (cfg.mode = "binaryToJson" →
      (cfg.options.keepSource = true → out.binary = item.binary) ∧
      (cfg.options.keepSource = false → ∃ bin, item.binary = some bin ∧
        out.binary = some (lodashUnset bin cfg.sourceKey) ∧
        lodashGet (lodashUnset bin cfg.sourceKey) cfg.sourceKey = none ∧
        ∀ q, ¬cfg.sourceKey <+: q → ¬q <+: cfg.sourceKey →
          lodashGet (lodashUnset bin cfg.sourceKey) q = lodashGet bin q)) ∧
    (cfg.mode = "jsonToBinary" →
      (cfg.options.keepSource = true → out.json = item.json) ∧
      (cfg.options.keepSource = false →
        (cfg.convertAllData = true → out.json = .obj []) ∧
        (cfg.convertAllData = false →
          out.json = lodashUnset item.json cfg.sourceKey ∧
          lodashGet out.json cfg.sourceKey = none ∧
          ∀ q, ¬cfg.sourceKey <+: q → ¬q <+: cfg.sourceKey →
            lodashGet out.json q = lodashGet item.json q))) := by
  constructor
  · intro hm
    rw [convertItem, if_pos hm] at h
    obtain ⟨bin, value, d, cv, hbin, hget, hdf, hbts, hbinary, hjson⟩ :=
      binaryToJsonItem_ok_some cfg item out h
    constructor
    · intro hk
      rw [hbinary, hbin]
      simp [hk]
    · intro hk
      refine ⟨bin, hbin, ?_, lodashGet_unset_self bin cfg.sourceKey,
        fun q h1 h2 => lodashGet_unset_frame bin cfg.sourceKey q h1 h2⟩
      rw [hbinary]
      simp [hk]
  · intro hm
    have hmode : ¬cfg.mode = "binaryToJson" := by rw [hm]; decide
    rw [convertItem, if_neg hmode, if_pos hm] at h
    obtain ⟨value, bytes, hval, hrb, hbinary, hjson⟩ :=
      jsonToBinaryItem_ok_some cfg item out h
    constructor
    · intro hk
      rw [hjson]
      simp [hk]
    · intro hk
      constructor
      · intro hca
        rw [hjson]
        simp [hk, hca]
      · intro hca
        have hj : out.json = lodashUnset item.json cfg.sourceKey := by
          rw [hjson]
          simp [hk, hca]
        refine ⟨hj, ?_, fun q h1 h2 => ?_⟩
        · rw [hj]
          exact lodashGet_unset_self item.json cfg.sourceKey
        · rw [hj]
          exact lodashGet_unset_frame item.json cfg.sourceKey q h1 h2

/-- Configuration for C4's witness: BinaryToStructured, single key, source
"data", destination "dest", `keepSource` unset. -/
def cfgC4 : Config :=
  ⟨"binaryToJson", false, false, ["data"], ["dest"], ⟨none, false, false, none, false⟩⟩

/-- The binary side of C4's witness record: the consumed entry and one
unrelated entry ("aGk=" is base64 of "hi"). -/
def binC4 : JValue :=
  .obj [("data", .obj [("data", .str "aGk="), ("mimeType", .str "text/plain")]),
        ("keep", .str "kept")]

/-- C4's witness record. -/
def itemC4 : Item := ⟨.obj [], some binC4⟩

/-- C4's witness output record. -/
def outC4 : Item :=
  ⟨.obj [("dest", .str "hi")], some (.obj [("keep", .str "kept")])⟩

/-- Witness for C4 at concrete input: the source entry is removed, nothing
remains at the source path, and the unrelated entry is untouched. -/
theorem c4_keep_source_witness :
    convertItem cfgC4 itemC4 = .ok (some outC4) ∧
    outC4.binary = some (lodashUnset binC4 ["data"]) ∧
    lodashGet (lodashUnset binC4 ["data"]) ["data"] = none ∧
    lodashGet (lodashUnset binC4 ["data"]) ["keep"] = lodashGet binC4 ["keep"] := by
  have h := c4_keep_source cfgC4 itemC4 outC4 rfl
  obtain ⟨bin, hbin, hb, hnone, hframe⟩ := (h.1 rfl).2 rfl
  have hbe : some binC4 = some bin := hbin
  have hbeq : bin = binC4 := by injection hbe with he; exact he.symm
  subst hbeq
  exact ⟨rfl, hb, hnone, hframe ["keep"] (by decide) (by decide)⟩

/-- Claim C5 (confirmed): BinaryToStructured on a record with a binary entry
at the source path, with `setAllData` and `keepSource` off and the other
options at their defaults: the output structured value is the input
structured value with the decoded text written at the destination path (the
destination reads back the written value, all paths neither containing nor
contained in it unchanged), and the output binary value is the input binary
minus the source entry (nothing at the source path, disjoint paths
unchanged).  The record's structured value is an object and the destination
path is nonempty, per the record/path data model (sections 3 and 6). -/
theorem c5_single_key_move (cfg : Config) (item : Item) (bin pv : JValue) (d : String)
    (hm : cfg.mode = "binaryToJson") (hsa : cfg.setAllData = false)
    (hk : cfg.options.keepSource = false) (hjp : cfg.options.jsonParse = false)
    (henc : cfg.options.encoding = none)
    (hbin : item.binary = some bin)
    (hget : lodashGet bin cfg.sourceKey = some pv)
    (hd : getDataField pv = some d)
    (hjson : ∃ jf, item.json = .obj jf)
    (hdk : cfg.destinationKey ≠ []) :
    convertItem cfg item = .ok (some
      ⟨lodashSet item.json cfg.destinationKey (.str (utf8Decode (base64Decode d))),
       some (lodashUnset bin cfg.sourceKey)⟩) ∧
    lodashGet (lodashSet item.json cfg.destinationKey
        (.str (utf8Decode (base64Decode d)))) cfg.destinationKey =
      some (.str (utf8Decode (base64Decode d))) ∧
    (∀ q, ¬cfg.destinationKey <+: q → ¬q <+: cfg.destinationKey →
      lodashGet (lodashSet item.json cfg.destinationKey
        (.str (utf8Decode (base64Decode d)))) q = lodashGet item.json q) ∧
    lodashGet (lodashUnset bin cfg.sourceKey) cfg.sourceKey = none ∧
    (∀ q, ¬cfg.sourceKey <+: q → ¬q <+: cfg.sourceKey →
      lodashGet (lodashUnset bin cfg.sourceKey) q = lodashGet bin q) := by
  refine ⟨?_, lodashGet_set item.json cfg.destinationKey _ hdk hjson,
    fun q h1 h2 => lodashGet_set_frame item.json cfg.destinationKey _ q h1 h2,
    lodashGet_unset_self bin cfg.sourceKey,
    fun q h1 h2 => lodashGet_unset_frame bin cfg.sourceKey q h1 h2⟩
  have he := binaryToJsonItem_eval cfg item bin pv d hbin hget hd hsa hjp henc
  rw [convertItem, if_pos hm, he]
  simp [hk]

/-- Configuration for C5's witness. -/
def cfgC5 : Config :=
  ⟨"binaryToJson", false, false, ["data"], ["out"], ⟨none, false, false, none, false⟩⟩

/-- The binary side of C5's witness record ("aGk=" is base64 of "hi"). -/
def binC5 : JValue :=
  .obj [("data", .obj [("data", .str "aGk="), ("mimeType", .str "text/plain")])]

/-- C5's witness record. -/
def itemC5 : Item := ⟨.obj [("x", .num 7)], some binC5⟩

/-- Witness for C5 at concrete input: the decoded text lands at "out", the
existing "x" entry is untouched, and the binary entry is gone. -/
theorem c5_single_key_move_witness :
    convertItem cfgC5 itemC5 = .ok (some
      ⟨.obj [("x", .num 7), ("out", .str "hi")], some (.obj [])⟩) ∧
    lodashGet (lodashSet itemC5.json ["out"] (.str (utf8Decode (base64Decode "aGk="))))
      ["out"] = some (.str "hi") ∧
    lodashGet (lodashSet itemC5.json ["out"] (.str (utf8Decode (base64Decode "aGk="))))
      ["x"] = lodashGet itemC5.json ["x"] ∧
    lodashGet (lodashUnset binC5 ["data"]) ["data"] = none := by
  have h := c5_single_key_move cfgC5 itemC5 binC5
    (.obj [("data", .str "aGk="), ("mimeType", .str "text/plain")]) "aGk="
    rfl rfl rfl rfl rfl rfl rfl rfl ⟨[("x", .num 7)], rfl⟩ (by decide)
  exact ⟨h.1, h.2.1, h.2.2.1 ["x"] (by decide) (by decide), h.2.2.2.1⟩

/-- Claim C8 (confirmed): with the `encoding` option omitted,
BinaryToStructured decodes the payload bytes as UTF-8 (shown for single-key
conversion: the written value is the UTF-8 decoding of the base64-decoded
payload); and with the `mimeType` option omitted, StructuredToBinary stores
the produced payload with mime type "application/json". -/
theorem c8_default_encoding_and_mime (cfg : Config) (item : Item) :
    (∀ bin pv d, cfg.mode = "binaryToJson" → cfg.options.encoding = none →
      cfg.setAllData = false → cfg.options.jsonParse = false →
      item.binary = some bin → lodashGet bin cfg.sourceKey = some pv →
      getDataField pv = some d →
      convertItem cfg item = .ok (some
        ⟨lodashSet item.json cfg.destinationKey (.str (utf8Decode (base64Decode d))),
         some (if cfg.options.keepSource then bin
           else lodashUnset bin cfg.sourceKey)⟩)) ∧
    (∀ value, cfg.mode = "jsonToBinary" → cfg.options.mimeType = none →
      cfg.options.useRawData = false →
      (if cfg.convertAllData then some item.json
        else lodashGet item.json cfg.sourceKey) = some value →
      convertItem cfg item = .ok (some
        ⟨(if cfg.options.keepSource then item.json
          else if cfg.convertAllData then .obj []
          else lodashUnset item.json cfg.sourceKey),
         some (lodashSet (binBaseOf item) cfg.destinationKey
          (.obj [("data", .str (base64Encode (utf8Encode (JSONstringify value)))),
                 ("mimeType", .str "application/json")]))⟩)) := by
  constructor
  · intro bin pv d hm henc hsa hjp hbin hget hd
    have he := binaryToJsonItem_eval cfg item bin pv d hbin hget hd hsa hjp henc
    rw [convertItem, if_pos hm, he]
  · intro value hm hmt hraw hval
    have hmode : ¬cfg.mode = "binaryToJson" := by rw [hm]; decide
    have he := jsonToBinaryItem_eval cfg item value hval hraw
    rw [convertItem, if_neg hmode, if_pos hm, he, hmt]
    rfl

/-- Configuration for C8's first (encoding) witness. -/
def cfgC8a : Config :=
  ⟨"binaryToJson", false, false, ["data"], ["out"], ⟨none, false, true, none, false⟩⟩

/-- Record for C8's first witness ("aGk=" is base64 of "hi"). -/
def itemC8a : Item :=
  ⟨.obj [], some (.obj [("data", .obj
    [("data", .str "aGk="), ("mimeType", .str "text/plain")])])⟩

/-- Configuration for C8's second (mime type) witness. -/
def cfgC8b : Config :=
  ⟨"jsonToBinary", true, true, ["s"], ["data"], ⟨none, false, false, none, false⟩⟩

/-- Record for C8's second witness. -/
def itemC8b : Item := ⟨.obj [("a", .bool true)], none⟩

/-- Witness for C8 at concrete inputs: the omitted encoding decodes "aGk="
to the text "hi", and the omitted mime type stores "application/json". -/
theorem c8_default_encoding_and_mime_witness :
    convertItem cfgC8a itemC8a = .ok (some
      ⟨.obj [("out", .str "hi")],
       some (.obj [("data", .obj
         [("data", .str "aGk="), ("mimeType", .str "text/plain")])])⟩) ∧
    convertItem cfgC8b itemC8b = .ok (some
      ⟨.obj [], some (.obj [("data", .obj
        [("data", .str "eyJhIjp0cnVlfQ=="),
         ("mimeType", .str "application/json")])])⟩) := by
  have ha := (c8_default_encoding_and_mime cfgC8a itemC8a).1
    (.obj [("data", .obj [("data", .str "aGk="), ("mimeType", .str "text/plain")])])
    (.obj [("data", .str "aGk="), ("mimeType", .str "text/plain")]) "aGk="
    rfl rfl rfl rfl rfl rfl rfl
  have hb := (c8_default_encoding_and_mime cfgC8b itemC8b).2
    (.obj [("a", .bool true)]) rfl rfl rfl rfl
  exact ⟨ha, hb⟩

/-- Claim C2 (confirmed): the round trip.  For any record whose binary side
respects the data model (absent or an object) and any path `P` holding a
structured value `v`, converting StructuredToBinary (source and destination
`P`, `useRawData` off, `keepSource` on) and then BinaryToStructured (source
and destination `P`, `setAllData` off, `jsonParse` on, `keepSource` on,
default encoding) produces an output record whose structured value at `P`
is `v` again.  The intermediate and final records are given explicitly. -/
theorem c2_round_trip (item : Item) (P : List String) (v : JValue)
    (sa1 ca2 : Bool) (o1 o2 : Options)
    (hWT : item.binary = none ∨ ∃ bf, item.binary = some (.obj bf))
    (hget : lodashGet item.json P = some v)
    (h1keep : o1.keepSource = true) (h1raw : o1.useRawData = false)
    (h2keep : o2.keepSource = true) (h2jp : o2.jsonParse = true)
    (h2enc : o2.encoding = none) :
    convertItem ⟨"jsonToBinary", sa1, false, P, P, o1⟩ item = .ok (some
      ⟨item.json, some (lodashSet (binBaseOf item) P (.obj
        [("data", .str (base64Encode (utf8Encode (JSONstringify v)))),
         ("mimeType", .str (jsDefault o1.mimeType "application/json"))]))⟩) ∧
    convertItem ⟨"binaryToJson", false, ca2, P, P, o2⟩
      ⟨item.json, some (lodashSet (binBaseOf item) P (.obj
        [("data", .str (base64Encode (utf8Encode (JSONstringify v)))),
         ("mimeType", .str (jsDefault o1.mimeType "application/json"))]))⟩ = .ok (some
      ⟨lodashSet item.json P v,
       some (lodashSet (binBaseOf item) P (.obj
        [("data", .str (base64Encode (utf8Encode (JSONstringify v)))),
         ("mimeType", .str (jsDefault o1.mimeType "application/json"))]))⟩) ∧
    lodashGet (lodashSet item.json P v) P = some v := by
  have hO := lodashGet_some_obj item.json P v hget
  have hPne := hO.1
  obtain ⟨jfs, hjf⟩ := hO.2
  have hbb : ∃ bfs, binBaseOf item = .obj bfs := by
    rcases hWT with hb | ⟨bf, hb⟩
    · exact ⟨[], by rw [binBaseOf, hb]⟩
    · exact ⟨bf, by rw [binBaseOf, hb]⟩
  have hval1 : (if (⟨"jsonToBinary", sa1, false, P, P, o1⟩ : Config).convertAllData
      then some item.json
      else lodashGet item.json (⟨"jsonToBinary", sa1, false, P, P, o1⟩ : Config).sourceKey) =
      some v := by
    simpa using hget
  have he1 := jsonToBinaryItem_eval ⟨"jsonToBinary", sa1, false, P, P, o1⟩ item v hval1 h1raw
  rw [h1keep] at he1
  simp only [eq_self_iff_true, if_true] at he1
  have hmm1 : ¬(⟨"jsonToBinary", sa1, false, P, P, o1⟩ : Config).mode = "binaryToJson" := by
    show ¬("jsonToBinary" : String) = "binaryToJson"
    decide
  have hc1 : convertItem ⟨"jsonToBinary", sa1, false, P, P, o1⟩ item =
      jsonToBinaryItem ⟨"jsonToBinary", sa1, false, P, P, o1⟩ item := by
    rw [convertItem, if_neg hmm1, if_pos rfl]
  refine ⟨by rw [hc1, he1], ?_, lodashGet_set item.json P v hPne ⟨jfs, hjf⟩⟩
  have hget2 : lodashGet (lodashSet (binBaseOf item) P (.obj
      [("data", .str (base64Encode (utf8Encode (JSONstringify v)))),
       ("mimeType", .str (jsDefault o1.mimeType "application/json"))])) P = some (.obj
      [("data", .str (base64Encode (utf8Encode (JSONstringify v)))),
       ("mimeType", .str (jsDefault o1.mimeType "application/json"))]) :=
    lodashGet_set (binBaseOf item) P _ hPne hbb
  have hparse : JSONparse (utf8Decode (base64Decode
      (base64Encode (utf8Encode (JSONstringify v))))) = .ok v := by
    rw [base64_roundtrip _ (utf8Encode_lt256 _), utf8_roundtrip, JSONparse_stringify]
  have he2 := binaryToJsonItem_eval_parse ⟨"binaryToJson", false, ca2, P, P, o2⟩
    ⟨item.json, some (lodashSet (binBaseOf item) P (.obj
      [("data", .str (base64Encode (utf8Encode (JSONstringify v)))),
       ("mimeType", .str (jsDefault o1.mimeType "application/json"))]))⟩
    (lodashSet (binBaseOf item) P (.obj
      [("data", .str (base64Encode (utf8Encode (JSONstringify v)))),
       ("mimeType", .str (jsDefault o1.mimeType "application/json"))]))
    (.obj [("data", .str (base64Encode (utf8Encode (JSONstringify v)))),
           ("mimeType", .str (jsDefault o1.mimeType "application/json"))])
    v (base64Encode (utf8Encode (JSONstringify v)))
    rfl hget2 rfl rfl h2jp h2enc hparse
  rw [h2keep] at he2
  simp only [eq_self_iff_true, if_true] at he2
  have hc2 : convertItem ⟨"binaryToJson", false, ca2, P, P, o2⟩
      ⟨item.json, some (lodashSet (binBaseOf item) P (.obj
        [("data", .str (base64Encode (utf8Encode (JSONstringify v)))),
         ("mimeType", .str (jsDefault o1.mimeType "application/json"))]))⟩ =
      binaryToJsonItem ⟨"binaryToJson", false, ca2, P, P, o2⟩
      ⟨item.json, some (lodashSet (binBaseOf item) P (.obj
        [("data", .str (base64Encode (utf8Encode (JSONstringify v)))),
         ("mimeType", .str (jsDefault o1.mimeType "application/json"))]))⟩ := by
    rw [convertItem, if_pos rfl]
  rw [hc2, he2]

/-- C2's witness record. -/
def itemC2 : Item := ⟨.obj [("a", .num 1)], none⟩

/-- C2's witness intermediate record ("MQ==" is base64 of "1"). -/
def midC2 : Item :=
  ⟨.obj [("a", .num 1)], some (.obj [("a", .obj
    [("data", .str "MQ=="), ("mimeType", .str "application/json")])])⟩

/-- Witness for C2 at a concrete record and path: converting to binary at
"a" and back reproduces the value 1 at "a". -/
theorem c2_round_trip_witness :
    convertItem ⟨"jsonToBinary", true, false, ["a"], ["a"],
      ⟨none, false, true, none, false⟩⟩ itemC2 = .ok (some midC2) ∧
    convertItem ⟨"binaryToJson", false, true, ["a"], ["a"],
      ⟨none, true, true, none, false⟩⟩ midC2 = .ok (some midC2) ∧
    lodashGet midC2.json ["a"] = some (.num 1) := by
  have h := c2_round_trip itemC2 ["a"] (.num 1) true true
    ⟨none, false, true, none, false⟩ ⟨none, true, true, none, false⟩
    (Or.inl rfl) rfl rfl rfl rfl rfl rfl
  exact ⟨h.1, h.2.1, h.2.2⟩

end MoveBinaryData
